import Mathlib

/-!
Verification development for the ContextForge repository: a shallow
embedding in Lean 4 of the sidecar forwarder (header extraction,
generation, request-scoped carrier, outbound injection), the header-rule
engine (rule parsing and matching), the ULID generator encoding, the
admission-time pod defaulter, and the policy reconciler, together with
theorems settling the specification claims about them.

Sources embedded (Go):
  internal/config/config.go        - HeaderRule, parseHeaderRules, validation
  internal/handler/proxy.go        - ProxyHandler.ServeHTTP, extractHeaders,
                                     HeaderPropagatingTransport.RoundTrip,
                                     GetHeadersFromContext, NewProxyHandler
  internal/server (unnamed)        - NewServer mux routing, readiness
  internal/generator (unnamed)     - encodeULID, Crockford alphabet
  internal/webhook/v1 (unnamed)    - PodCustomDefaulter.Default and helpers
  internal/controller/headerpropagationpolicy_controller.go - Reconcile
-/

/-! ## Association-list maps (Go `map[string]string` observations)

Go maps are modelled as association lists with unique keys maintained by
construction: assignment (`m[k] = v`) replaces the entry when the key is
present and appends it otherwise. -/

/-- Lookup in a string-keyed map, `none` when absent. -/
def assocGet (m : List (String × String)) (k : String) : Option String :=
  (m.find? (fun p => p.1 == k)).map (fun p => p.2)

/-- Go map assignment `m[k] = v`: replace the entry for `k`, or append it. -/
def assocSet (m : List (String × String)) (k v : String) : List (String × String) :=
  if m.any (fun p => p.1 == k) then
    m.map (fun p => if p.1 == k then (k, v) else p)
  else
    m ++ [(k, v)]

/-! ## String primitives (structural models of the Go library calls)

Lean's built-in `String.trim`, `String.splitOn` and `String.startsWith`
are compiled primitives that the kernel cannot evaluate, so the Go
library functions used by the sources are modelled structurally over the
character list. -/

/-- Go `strings.TrimSpace` (ASCII whitespace). -/
def trimSpace (s : String) : String :=
  String.mk (((s.data.dropWhile Char.isWhitespace).reverse.dropWhile Char.isWhitespace).reverse)

/-- Go `strings.Split` on a single separator character. -/
def splitOnChar (sep : Char) (s : String) : List String :=
  (s.data.foldr
    (fun c acc => if c == sep then [] :: acc else (c :: acc.headD []) :: acc.tail)
    [[]]).map String.mk

/-- Go `strings.HasPrefix`. -/
def strStarts (s pre : String) : Bool :=
  pre.data.isPrefixOf s.data

/-- Go `strings.HasSuffix`. -/
def strEnds (s suf : String) : Bool :=
  suf.data.reverse.isPrefixOf s.data.reverse

/-! ## Canonical header keys (net/http `CanonicalHeaderKey`) -/

/-- Valid header-field byte per Go net/textproto: ASCII alphanumerics plus
the token specials (listed by code point). -/
def validHeaderFieldChar (c : Char) : Bool :=
  c.isAlphanum ||
    (([33, 35, 36, 37, 38, 39, 42, 43, 45, 46, 94, 95, 96, 124, 126].map Char.ofNat).contains c)

/-- One pass of Go canonicalization: uppercase a letter after a hyphen (or
at the start), lowercase otherwise; the flag tracks whether the previous
character was a hyphen. -/
def canonicalizeChars : Bool → List Char → List Char
  | _, [] => []
  | upper, c :: cs =>
    let c' := if upper then c.toUpper else c.toLower
    c' :: canonicalizeChars (c' == '-') cs

/-- Go `http.CanonicalHeaderKey`: canonicalize when every character is a
valid header-field byte, otherwise return the string unmodified. -/
def canonicalHeaderKey (s : String) : String :=
  if s.data.all validHeaderFieldChar then
    String.mk (canonicalizeChars true s.data)
  else s

/-! ## HTTP headers (Go `http.Header`)

`http.Header` is a canonical-keyed `map[string][]string`; `Get` returns
the first value for the canonicalized key (empty string when absent) and
`Set` replaces all values for the canonicalized key with a single one. -/

/-- An HTTP header collection: entries of header name and value list. -/
abbrev Header := List (String × List String)

/-- Go `Header.Get`: first value stored under the canonicalized key, or
the empty string. -/
def Header.get (h : Header) (key : String) : String :=
  match h.find? (fun p => p.1 == canonicalHeaderKey key) with
  | some p => p.2.headD ""
  | none => ""

/-- Go `Header.Set`: store exactly one value under the canonicalized key,
replacing the existing entry or appending a new one. -/
def Header.set (h : Header) (key val : String) : Header :=
  let ck := canonicalHeaderKey key
  if h.any (fun p => p.1 == ck) then
    h.map (fun p => if p.1 == ck then (ck, [val]) else p)
  else
    h ++ [(ck, [val])]

/-! ## Header rules (internal/config/config.go) -/

/-- `config.HeaderRule`. The compiled path regex is represented by the
match predicate produced by `regexp.Compile` (the regex engine itself is
external to the repository and is passed in as a parameter where rules
are parsed). -/
structure HeaderRule where
  name : String
  generate : Bool
  generatorType : String
  propagate : Bool
  pathRegex : String
  methods : List String
  compiledPathRegex : Option (String → Bool)

/-- `HeaderRule.MatchesRequest`: the compiled path regex (when present)
must match and the method (when the method list is nonempty) must be
contained case-insensitively. -/
def HeaderRule.matchesRequest (r : HeaderRule) (path method : String) : Bool :=
  (match r.compiledPathRegex with
   | some re => re path
   | none => true) &&
  (if r.methods.length > 0 then
     r.methods.any (fun m => m.toUpper == method.toUpper)
   else true)

/-- `validateHeaderName`'s regex `[a-zA-Z0-9][a-zA-Z0-9-]*` applied to the
whole string. -/
def headerNameRegexOk (s : String) : Bool :=
  match s.data with
  | [] => false
  | c :: cs => c.isAlphanum && cs.all (fun d => d.isAlphanum || d == '-')

/-- `config.validateHeaderName`: nonempty, at most 256 characters, and
matching the header-name regex. -/
def validateHeaderName (name : String) : Except String Unit :=
  if name.length == 0 then .error "header name cannot be empty"
  else if name.length > 256 then .error "header name exceeds maximum length"
  else if headerNameRegexOk name then .ok ()
  else .error "header name is invalid"

/-- The HTTP methods accepted by `parseHeaderRules`. -/
def validMethods : List String :=
  ["GET", "POST", "PUT", "DELETE", "PATCH", "HEAD", "OPTIONS", "TRACE", "CONNECT"]

/-- `generator.New` succeeds exactly on the three known generator types. -/
def generatorTypeKnown (t : String) : Bool :=
  t == "uuid" || t == "ulid" || t == "timestamp"

/-- A header rule as decoded by `json.Unmarshal` from the `HEADER_RULES`
JSON array. The `propagate` field keeps the declaration form: `none` when
the JSON omitted the field, `some b` when it declared it; Go's unmarshal
collapses both `none` and `some false` to the zero value `false`. -/
structure RawRule where
  name : String
  generate : Bool
  generatorType : String
  propagate : Option Bool
  pathRegex : String
  methods : List String

/-- The per-rule body of `config.parseHeaderRules`: validate the name,
default `Propagate` (the source sets it to `true` whenever the decoded
value is `false`, which includes an explicit `"propagate": false`),
default and validate the generator type, compile the path regex via the
supplied engine, and validate the methods. -/
def processRule (compile : String → Except String (String → Bool)) (raw : RawRule) :
    Except String HeaderRule := do
  let _ ← validateHeaderName raw.name
  let decodedPropagate := raw.propagate.getD false
  let propagate := if !decodedPropagate then true else decodedPropagate
  let genType ←
    if raw.generate then
      let gt := if raw.generatorType == "" then "uuid" else raw.generatorType
      if generatorTypeKnown gt then pure gt
      else Except.error "unknown generator type"
    else pure raw.generatorType
  let compiled ←
    if raw.pathRegex != "" then
      match compile raw.pathRegex with
      | .ok re => pure (some re)
      | .error e => Except.error e
    else pure none
  if raw.methods.all (fun m => validMethods.contains m.toUpper) then
    pure { name := raw.name, generate := raw.generate, generatorType := genType,
           propagate := propagate, pathRegex := raw.pathRegex, methods := raw.methods,
           compiledPathRegex := compiled }
  else Except.error "invalid HTTP method"

/-- `config.parseHeaderRules` on an already-JSON-decoded rule array. -/
def parseHeaderRules (compile : String → Except String (String → Bool))
    (raws : List RawRule) : Except String (List HeaderRule) :=
  raws.mapM (processRule compile)

/-! ## Header extraction and the request-scoped carrier
(internal/handler/proxy.go) -/

/-- An inbound request as seen by `ProxyHandler.ServeHTTP`. -/
structure Request where
  method : String
  path : String
  headers : Header

/-- Generator state: the entropy/clock state a generator family threads
between calls (the ULID generator's seeded `rand` source is the one
mutable instance in the source; uuid and timestamp are stateless). -/
abbrev GenState := Nat

/-- A generator family: given the generator type string and the current
state, produce the generated value and the next state (models
`generator.Generator.Generate`). -/
abbrev GenFun := String → GenState → String × GenState

/-- The `ProxyHandler.generators` map built by `NewProxyHandler`: for each
rule with generation enabled, the canonicalized rule name maps to its
generator (represented by its generator type). -/
def mkGenerators (rules : List HeaderRule) : List (String × String) :=
  rules.foldl
    (fun m r => if r.generate then assocSet m (canonicalHeaderKey r.name) r.generatorType else m)
    []

/-- The evolving state of `ProxyHandler.extractHeaders`: the (possibly
mutated) request headers, the accumulated `headerMap`, the generator
state, and a ghost log of the canonical names for which a generator was
invoked (observable through the `r.Header.Set` mutation). -/
structure ExtractState where
  hdr : Header
  scope : List (String × String)
  gs : GenState
  genLog : List String

/-- One iteration of the rule loop in `ProxyHandler.extractHeaders`:
skip non-matching rules; read the header under the canonicalized trimmed
name; when empty and generation is enabled and a generator is configured,
generate a value and set it on the request; record the pair in the header
map when the value is nonempty and propagation is enabled. -/
def extractStep (genFun : GenFun) (gens : List (String × String)) (r : Request)
    (st : ExtractState) (rule : HeaderRule) : ExtractState :=
  if !(rule.matchesRequest r.path r.method) then st
  else
    let canonicalName := canonicalHeaderKey (trimSpace rule.name)
    let value := st.hdr.get canonicalName
    let gstep :=
      if value == "" && rule.generate then
        match assocGet gens canonicalName with
        | some gt =>
          let gv := genFun gt st.gs
          (gv.1, st.hdr.set canonicalName gv.1, gv.2, st.genLog ++ [canonicalName])
        | none => (value, st.hdr, st.gs, st.genLog)
      else (value, st.hdr, st.gs, st.genLog)
    let scope :=
      if gstep.1 != "" && rule.propagate then assocSet st.scope canonicalName gstep.1
      else st.scope
    { hdr := gstep.2.1, scope := scope, gs := gstep.2.2.1, genLog := gstep.2.2.2 }

/-- `ProxyHandler.extractHeaders` over the configured rule list. -/
def extractHeaders (genFun : GenFun) (gens : List (String × String))
    (rules : List HeaderRule) (r : Request) (gs : GenState) : ExtractState :=
  rules.foldl (extractStep genFun gens r) { hdr := r.headers, scope := [], gs := gs, genLog := [] }

/-- The outbound request the reverse proxy hands the transport: the
forwarded headers together with the per-request context carrier
populated under `ContextKeyHeaders` by `ServeHTTP`. -/
structure OutboundRequest where
  headers : Header
  carrier : Option (List (String × String))

/-- `handler.GetHeadersFromContext`: the carrier value, or `none` when
the context holds no header map. -/
def getHeadersFromContext (r : OutboundRequest) : Option (List (String × String)) :=
  r.carrier

/-- The injection loop of `HeaderPropagatingTransport.RoundTrip`: for each
recorded pair, set the header only when the outgoing request's current
value for that name is empty. -/
def injectHeaders (sc : List (String × String)) (h : Header) : Header :=
  sc.foldl (fun acc p => if acc.get p.1 == "" then acc.set p.1 p.2 else acc) h

/-- `HeaderPropagatingTransport.RoundTrip` up to the delegation to the
base transport: read the scope solely from the request's carrier and
inject it into the outgoing headers. -/
def roundTrip (req : OutboundRequest) : Header :=
  match getHeadersFromContext req with
  | none => req.headers
  | some m => injectHeaders m req.headers

/-- The per-request pipeline of `ProxyHandler.ServeHTTP`: extract headers
(threading the generator state), attach the header map to the request's
context carrier, and pass the forwarded request through the
header-propagating transport; the result is the header set observed
upstream, paired with the generator state left for the next request. -/
def processOne (genFun : GenFun) (gens : List (String × String))
    (rules : List HeaderRule) (gs : GenState) (r : Request) : Header × GenState :=
  let ex := extractHeaders genFun gens rules r gs
  (roundTrip { headers := ex.hdr, carrier := some ex.scope }, ex.gs)

/-- Sequential handling of requests on the handler: connection reuse
shares exactly the generator state (the handler, rule list and transport
fields are immutable after construction, and each request gets a fresh
context carrier). -/
def processSeq (genFun : GenFun) (gens : List (String × String))
    (rules : List HeaderRule) (gs : GenState) : List Request → List Header
  | [] => []
  | r :: rs =>
    let step := processOne genFun gens rules gs r
    step.1 :: processSeq genFun gens rules step.2 rs

/-- A request triggers no generation when every matching rule with
generation enabled already finds a nonempty inbound value. -/
def noGenTriggered (rules : List HeaderRule) (r : Request) : Bool :=
  rules.all fun rule =>
    !(rule.matchesRequest r.path r.method && rule.generate &&
      r.headers.get (canonicalHeaderKey (trimSpace rule.name)) == "")

/-! ## Server routing and the reverse-proxy director
(internal/server, internal/handler NewProxyHandler) -/

/-- A parsed request URL: scheme, host (authority), and path. -/
structure ReqURL where
  scheme : String
  host : String
  path : String
deriving DecidableEq

/-- `httputil.singleJoiningSlash`. -/
def singleJoiningSlash (a b : String) : String :=
  let aslash := strEnds a "/"
  let bslash := strStarts b "/"
  if aslash && bslash then a ++ b.drop 1
  else if !aslash && !bslash then a ++ "/" ++ b
  else a ++ b

/-- The target URL built by `NewProxyHandler` from
`url.Parse("http://" + cfg.TargetHost)`: scheme http, host the configured
target, empty path (the target host is a plain host:port string). -/
def newProxyHandlerTarget (targetHost : String) : ReqURL :=
  { scheme := "http", host := targetHost, path := "" }

/-- The director of `httputil.NewSingleHostReverseProxy` (which
`NewProxyHandler` wraps without changing its effect): rewrite the request
URL's scheme and host to the target's and join the paths. The outbound
connection is dialed to the resulting URL's host. -/
def director (target : ReqURL) (u : ReqURL) : ReqURL :=
  { scheme := target.scheme, host := target.host,
    path := singleJoiningSlash target.path u.path }

/-- Where the `net/http` ServeMux built in `server.NewServer` dispatches a
request. Patterns registered: `/healthz`, `/ready`, and the subtree root
`/` (the proxy handler). For non-CONNECT requests the parsed path is
matched (already-clean paths assumed; an empty path is canonicalized to
`/`); for CONNECT requests the mux matches the URL path verbatim, and a
CONNECT request in authority form has an empty URL path. -/
inductive Route
  | health
  | ready
  | proxy
  | notFound
deriving DecidableEq

/-- ServeMux dispatch for the three registered patterns. -/
def muxRoute (method : String) (urlPath : String) : Route :=
  let p := if method == "CONNECT" then urlPath
           else if urlPath == "" then "/" else urlPath
  if p == "/healthz" then .health
  else if p == "/ready" then .ready
  else if strStarts p "/" then .proxy
  else .notFound

/-- HTTP status produced by the mux for a request that reaches no
registered handler (`http.NotFoundHandler`). -/
def notFoundStatus : Nat := 404

/-! ## ULID encoding (internal/generator, `encodeULID`) -/

/-- Crockford's Base32 alphabet used by `encodeULID`. -/
def crockfordAlphabet : String := "0123456789ABCDEFGHJKMNPQRSTVWXYZ"

/-- Indexing into the Crockford alphabet (callers pass indices below 32). -/
def crockfordChar (n : Nat) : Char :=
  crockfordAlphabet.data.getD n '0'

/-- The ten timestamp characters of `encodeULID`: 5-bit groups of the
millisecond count, most significant first (shifts 45 down to 0). -/
def ulidTimeChars (ms : Nat) : List Char :=
  [45, 40, 35, 30, 25, 20, 15, 10, 5, 0].map (fun k => crockfordChar ((ms >>> k) &&& 31))

/-- Byte `i` of the random block (Go `byte` arithmetic is modulo 256). -/
def ulidByte (rb : List Nat) (i : Nat) : Nat :=
  rb.getD i 0 % 256

/-- The sixteen randomness characters of `encodeULID`, mirroring the
source's byte-shift formulas (left shifts truncate to a byte before the
5-bit mask, as Go `byte` arithmetic does). -/
def ulidRandChars (rb : List Nat) : List Char :=
  let b := ulidByte rb
  [ crockfordChar ((b 0 >>> 3) &&& 31),
    crockfordChar (((b 0 <<< 2) % 256 ||| (b 1 >>> 6)) &&& 31),
    crockfordChar ((b 1 >>> 1) &&& 31),
    crockfordChar (((b 1 <<< 4) % 256 ||| (b 2 >>> 4)) &&& 31),
    crockfordChar (((b 2 <<< 1) % 256 ||| (b 3 >>> 7)) &&& 31),
    crockfordChar ((b 3 >>> 2) &&& 31),
    crockfordChar (((b 3 <<< 3) % 256 ||| (b 4 >>> 5)) &&& 31),
    crockfordChar (b 4 &&& 31),
    crockfordChar ((b 5 >>> 3) &&& 31),
    crockfordChar (((b 5 <<< 2) % 256 ||| (b 6 >>> 6)) &&& 31),
    crockfordChar ((b 6 >>> 1) &&& 31),
    crockfordChar (((b 6 <<< 4) % 256 ||| (b 7 >>> 4)) &&& 31),
    crockfordChar (((b 7 <<< 1) % 256 ||| (b 8 >>> 7)) &&& 31),
    crockfordChar ((b 8 >>> 2) &&& 31),
    crockfordChar (((b 8 <<< 3) % 256 ||| (b 9 >>> 5)) &&& 31),
    crockfordChar (b 9 &&& 31) ]

/-- `generator.encodeULID`: ten timestamp characters followed by sixteen
randomness characters, `ms` being the Unix-millisecond timestamp and `rb`
the ten random bytes read from the generator's entropy source. -/
def encodeULID (ms : Nat) (rb : List Nat) : String :=
  String.mk (ulidTimeChars ms ++ ulidRandChars rb)

/-! ## Admission-time pod defaulter (webhook v1, `PodCustomDefaulter`) -/

/-- A container: name, image, ports (container ports), and env var list.
The sidecar's resource requests/limits, security context and probes are
constant records in the source and are not modified anywhere by the
defaulter, so they are elided from the model. -/
structure Container where
  name : String
  image : String
  ports : List Nat
  env : List (String × String)
deriving DecidableEq

/-- A pod: its annotations and its container list. -/
structure Pod where
  annotations : List (String × String)
  containers : List Container
deriving DecidableEq

/-- Annotation keys and constants of the webhook package. -/
def annotationEnabled : String := "ctxforge.io/enabled"

/-- `AnnotationHeaders`. -/
def annotationHeaders : String := "ctxforge.io/headers"

/-- `AnnotationTargetPort`. -/
def annotationTargetPort : String := "ctxforge.io/target-port"

/-- `AnnotationInjected`. -/
def annotationInjected : String := "ctxforge.io/injected"

/-- `ProxyContainerName`. -/
def proxyContainerName : String := "ctxforge-proxy"

/-- `DefaultTargetPort`. -/
def defaultTargetPort : String := "8080"

/-- `ProxyPort`. -/
def proxyPort : Nat := 9090

/-- `PodCustomDefaulter.shouldInject`: the enabled annotation is present
with the literal value true. -/
def shouldInject (pod : Pod) : Bool :=
  assocGet pod.annotations annotationEnabled == some "true"

/-- `PodCustomDefaulter.extractHeaders`: split the headers annotation on
commas, trim, and drop empties. -/
def extractHeadersAnn (pod : Pod) : List String :=
  match assocGet pod.annotations annotationHeaders with
  | none => []
  | some s =>
    if s == "" then []
    else ((splitOnChar ',' s).map (fun part => trimSpace part)).filter (fun h => h != "")

/-- `PodCustomDefaulter.isAlreadyInjected`: the injected-marker annotation
is present, or a container named like the proxy exists. -/
def isAlreadyInjected (pod : Pod) : Bool :=
  (assocGet pod.annotations annotationInjected).isSome ||
    pod.containers.any (fun c => c.name == proxyContainerName)

/-- The sidecar container assembled by `PodCustomDefaulter.injectSidecar`
(image from the defaulter, port 9090, env wiring the header list, target
host, proxy port, and logging). -/
def sidecarContainer (proxyImage : String) (headers : List String) (targetPort : String) :
    Container :=
  { name := proxyContainerName, image := proxyImage, ports := [proxyPort],
    env := [("HEADERS_TO_PROPAGATE", String.intercalate "," headers),
            ("TARGET_HOST", "localhost:" ++ targetPort),
            ("PROXY_PORT", toString proxyPort),
            ("LOG_LEVEL", "info"),
            ("LOG_FORMAT", "json")] }

/-- `PodCustomDefaulter.injectSidecar`: resolve the target port from the
annotation (used verbatim when present and nonempty) and append the
sidecar container. -/
def injectSidecar (proxyImage : String) (pod : Pod) (headers : List String) : Pod :=
  let targetPort :=
    match assocGet pod.annotations annotationTargetPort with
    | some p => if p != "" then p else defaultTargetPort
    | none => defaultTargetPort
  { pod with containers := pod.containers ++ [sidecarContainer proxyImage headers targetPort] }

/-- The three proxy env vars added to application containers. -/
def proxyEnvVars : List (String × String) :=
  [("HTTP_PROXY", "http://localhost:" ++ toString proxyPort),
   ("HTTPS_PROXY", "http://localhost:" ++ toString proxyPort),
   ("NO_PROXY", "localhost,127.0.0.1")]

/-- `PodCustomDefaulter.modifyAppContainers`: append the proxy env vars to
every container except the proxy itself. -/
def modifyAppContainers (pod : Pod) : Pod :=
  { pod with containers := pod.containers.map (fun c =>
      if c.name == proxyContainerName then c else { c with env := c.env ++ proxyEnvVars }) }

/-- `PodCustomDefaulter.markAsInjected`. -/
def markAsInjected (pod : Pod) : Pod :=
  { pod with annotations := assocSet pod.annotations annotationInjected "true" }

/-- `PodCustomDefaulter.Default`: skip when not opted in, when no headers
are declared, or when already injected; otherwise inject the sidecar,
modify the app containers, and set the marker. -/
def podDefault (proxyImage : String) (pod : Pod) : Pod :=
  if !shouldInject pod then pod
  else if extractHeadersAnn pod == [] then pod
  else if isAlreadyInjected pod then pod
  else markAsInjected (modifyAppContainers (injectSidecar proxyImage pod (extractHeadersAnn pod)))

/-! ## Target-port validation (current webhook, modelled from the spec)

The webhook test file in the repository exercises a function
`validateTargetPort` and an `injectSidecar` that falls back to the default
port on invalid input, but that revision of the webhook source is not
present under the source tree (only its tests are); the definitions below
model it. -/

/-- Modelled from the spec: the integer parse performed by the current
webhook's `validateTargetPort` (Go `strconv.Atoi`): an optional sign
followed by at least one decimal digit. -/
def parsePortInt (s : String) : Option Int :=
  let core :=
    if strStarts s "-" || strStarts s "+" then (s.drop 1, strStarts s "-")
    else (s, false)
  if core.1.length > 0 && core.1.data.all Char.isDigit then
    let n : Nat := core.1.data.foldl (fun acc c => acc * 10 + (c.toNat - 48)) 0
    some (if core.2 then -(n : Int) else (n : Int))
  else none

/-- Modelled from the spec: `validateTargetPort` from the current webhook
revision, absent from the source tree. The port annotation must be
numeric, within 1..65535, and different from the forwarder listener port
9090; the error messages follow the webhook tests. -/
def validateTargetPort (port : String) : Except String Unit :=
  match parsePortInt port with
  | none => .error "target port must be a number"
  | some n =>
    if n < 1 || n > 65535 then .error "target port must be between 1 and 65535"
    else if n == 9090 then .error "target port cannot be the same as proxy port"
    else .ok ()

/-- Modelled from the spec: the warning annotation the current webhook
adds when it falls back to the default target port. -/
def annotationTargetPortWarning : String := "ctxforge.io/target-port-warning"

/-- Modelled from the spec: the target-port resolution of the current
webhook's `injectSidecar`: absent annotation uses the default silently; a
present annotation failing `validateTargetPort` falls back to the default
and requests a warning annotation. -/
def resolveTargetPort (annotations : List (String × String)) : String × Bool :=
  match assocGet annotations annotationTargetPort with
  | none => (defaultTargetPort, false)
  | some p =>
    match validateTargetPort p with
    | .ok _ => (p, false)
    | .error _ => (defaultTargetPort, true)

/-- Modelled from the spec: the current webhook's `injectSidecar` with
target-port validation: wire the resolved port into the sidecar's
`TARGET_HOST` and add the warning annotation on fallback. -/
def injectSidecarValidated (proxyImage : String) (pod : Pod) (headers : List String) : Pod :=
  let resolved := resolveTargetPort pod.annotations
  let annotations :=
    if resolved.2 then
      assocSet pod.annotations annotationTargetPortWarning
        "invalid target-port annotation, falling back to default"
    else pod.annotations
  { annotations := annotations,
    containers := pod.containers ++ [sidecarContainer proxyImage headers resolved.1] }

/-! ## Policy reconciler
(internal/controller/headerpropagationpolicy_controller.go) -/

/-- A status condition (`metav1.Condition` restricted to the fields the
reconciler writes; the transition timestamp is not modelled). -/
structure PolicyCondition where
  type : String
  status : Bool
  reason : String
  message : String
  observedGeneration : Int
deriving DecidableEq

/-- `HeaderPropagationPolicyStatus`. -/
structure PolicyStatus where
  observedGeneration : Int
  appliedToPods : Int
  conditions : List PolicyCondition
deriving DecidableEq

/-- A `HeaderPropagationPolicy` object as the reconciler sees it after a
successful fetch: its generation, whether a pod selector is declared, and
its current status. -/
structure Policy where
  generation : Int
  podSelectorPresent : Bool
  status : PolicyStatus
deriving DecidableEq

/-- A pod as inspected by the reconciler: its container names and its
phase string. -/
structure CtrlPod where
  containers : List String
  phase : String
deriving DecidableEq

/-- Whether a pod carries the ctxforge sidecar container. -/
def ctrlHasSidecar (p : CtrlPod) : Bool :=
  p.containers.any (fun c => c == proxyContainerName)

/-- `meta.SetStatusCondition`: replace the condition with the same type,
or append. -/
def setStatusCondition (conds : List PolicyCondition) (c : PolicyCondition) :
    List PolicyCondition :=
  if conds.any (fun d => d.type == c.type) then
    conds.map (fun d => if d.type == c.type then c else d)
  else conds ++ [c]

/-- `setReadyCondition` on the in-memory policy object. -/
def setReadyCondition (policy : Policy) (status : Bool) (reason message : String) : Policy :=
  let c : PolicyCondition :=
    { type := "Ready", status := status, reason := reason, message := message,
      observedGeneration := policy.generation }
  let st := { policy.status with conditions := setStatusCondition policy.status.conditions c }
  { policy with status := st }

/-- The outcome of one `Reconcile` call on an existing policy: the
in-memory object after its mutations, the status persisted in the cluster
afterwards (the original status when no `Status().Update` was issued; the
update itself is assumed to succeed when issued), whether an error was
returned, and the requeue delay in seconds. -/
structure ReconcileResult where
  memory : Policy
  persisted : PolicyStatus
  isError : Bool
  requeueAfter : Option Nat
deriving DecidableEq

/-- `HeaderPropagationPolicyReconciler.Reconcile` on an existing policy.
`selectorParse` models `metav1.LabelSelectorAsSelector` (consulted only
when a pod selector is declared; an absent selector matches everything),
and `listPods` models the client `List` call returning the pods of the
policy's namespace that match the selector. On a selector-parse or list
failure the Ready condition is set on the in-memory object and the error
is returned without a status update. On success the counts are computed,
the status fields and Ready condition are written, the status update is
issued, and the requeue interval is chosen. -/
def reconcile (policy : Policy) (selectorParse : Except String Unit)
    (listPods : Except String (List CtrlPod)) : ReconcileResult :=
  let parseOutcome := if policy.podSelectorPresent then selectorParse else .ok ()
  match parseOutcome with
  | .error e =>
    { memory := setReadyCondition policy false "InvalidSelector"
        ("Failed to parse PodSelector: " ++ e),
      persisted := policy.status, isError := true, requeueAfter := none }
  | .ok _ =>
    match listPods with
    | .error e =>
      { memory := setReadyCondition policy false "ListPodsFailed"
          ("Failed to list pods: " ++ e),
        persisted := policy.status, isError := true, requeueAfter := none }
    | .ok pods =>
      let matchedPods := pods.countP (fun p => ctrlHasSidecar p && p.phase == "Running")
      let pendingPods := pods.countP (fun p => ctrlHasSidecar p && p.phase == "Pending")
      let totalSelectorMatches := pods.countP (fun p => ctrlHasSidecar p)
      let p1 := { policy with status := { policy.status with
        observedGeneration := policy.generation, appliedToPods := (matchedPods : Int) } }
      let p2 :=
        if matchedPods > 0 then
          setReadyCondition p1 true "PolicyApplied"
            "Policy is applied to pods with contextforge-proxy sidecar"
        else
          setReadyCondition p1 false "NoMatchingPods"
            "No running pods with contextforge-proxy sidecar match the selector"
      { memory := p2, persisted := p2.status, isError := false,
        requeueAfter :=
          if pendingPods > 0 then some 10
          else if matchedPods == 0 && totalSelectorMatches == 0 then some 30
          else none }

/-! ## Concrete inputs used by witnesses and counterexamples -/

/-- Rule list for the isolation witness: a plain propagation rule and a
generating rule. -/
def w1Rules : List HeaderRule :=
  [{ name := "x-tenant-id", generate := false, generatorType := "", propagate := true,
     pathRegex := "", methods := [], compiledPathRegex := none },
   { name := "x-request-id", generate := true, generatorType := "uuid", propagate := true,
     pathRegex := "", methods := [], compiledPathRegex := none }]

/-- A deterministic generator family standing in for the uuid generator in
witnesses. -/
def w1Gen : GenFun := fun _ s => ("generated-" ++ toString s, s + 1)

/-- First request on the reused connection. -/
def w1A : Request :=
  { method := "GET", path := "/a",
    headers := [("X-Tenant-Id", ["t1"]), ("X-Request-Id", ["a1"])] }

/-- Second request on the reused connection: no tenant header. -/
def w1B : Request :=
  { method := "GET", path := "/b", headers := [("X-Request-Id", ["b1"])] }

/-- A generating rule used by the generation witness. -/
def w4Rule : HeaderRule :=
  { name := "x-request-id", generate := true, generatorType := "uuid", propagate := true,
    pathRegex := "", methods := [], compiledPathRegex := none }

/-- Rule list for the generation witness. -/
def w4Rules : List HeaderRule := [w4Rule]

/-- A request already carrying a nonempty value for the generated header. -/
def w4Req : Request :=
  { method := "GET", path := "/", headers := [("X-Request-Id", ["keep-me"])] }

/-- An already-injected pod (marker annotation present) for the
idempotence witness. -/
def w7Pod : Pod :=
  { annotations := [("ctxforge.io/enabled", "true"), ("ctxforge.io/headers", "x-a"),
                    ("ctxforge.io/injected", "true")],
    containers := [{ name := "app", image := "myapp:latest", ports := [], env := [] }] }

/-- A pod whose target-port annotation collides with the listener port,
for the target-port fallback witness. -/
def w8Pod : Pod :=
  { annotations := [("ctxforge.io/enabled", "true"), ("ctxforge.io/headers", "x-a"),
                    ("ctxforge.io/target-port", "9090")],
    containers := [{ name := "app", image := "myapp:latest", ports := [], env := [] }] }

/-- Big-endian base-32 digit list of length `k` (the arithmetic content
of the ULID timestamp encoding). -/
def digitsBE : Nat → Nat → List Nat
  | 0, _ => []
  | k + 1, n => (n / 32 ^ k % 32) :: digitsBE k n

/-- Prior Ready condition on the reconciler-claim policy, persisted by an
earlier successful reconcile. -/
def w10Cond : PolicyCondition :=
  { type := "Ready", status := true, reason := "PolicyApplied",
    message := "Policy is applied to pods with contextforge-proxy sidecar",
    observedGeneration := 2 }

/-- Concrete policy for the reconciler claim: generation 3, a declared pod
selector, and a previously persisted Ready=True status. -/
def w10Policy : Policy :=
  { generation := 3, podSelectorPresent := true,
    status := { observedGeneration := 2, appliedToPods := 1, conditions := [w10Cond] } }

/-- A running pod carrying the sidecar container, for the reconciler
witness. -/
def w10Pod : CtrlPod :=
  { containers := ["app", proxyContainerName], phase := "Running" }

/-! ## Helper lemmas: characters and canonicalization -/

/-- `Char.ofNat` after `Char.toNat` round-trips below the surrogate range. -/
theorem char_toNat_ofNat {n : Nat} (h : n < 55296) : (Char.ofNat n).toNat = n := by
  have hv : n.isValidChar := Or.inl h
  rw [Char.ofNat, dif_pos hv]
  simp [Char.ofNatAux, Char.toNat, UInt32.toNat]

/-- Uppercasing is idempotent. -/
theorem toUpper_toUpper (c : Char) : c.toUpper.toUpper = c.toUpper := by
  unfold Char.toUpper
  by_cases h : 97 ≤ c.toNat ∧ c.toNat ≤ 122
  · rw [if_pos h]
    have ht : (Char.ofNat (c.toNat - 32)).toNat = c.toNat - 32 := char_toNat_ofNat (by omega)
    rw [if_neg (by omega)]
  · rw [if_neg h, if_neg h]

/-- Lowercasing is idempotent. -/
theorem toLower_toLower (c : Char) : c.toLower.toLower = c.toLower := by
  unfold Char.toLower
  by_cases h : 65 ≤ c.toNat ∧ c.toNat ≤ 90
  · rw [if_pos h]
    have ht : (Char.ofNat (c.toNat + 32)).toNat = c.toNat + 32 := char_toNat_ofNat (by omega)
    rw [if_neg (by omega)]
  · rw [if_neg h, if_neg h]

/-- `Char.isUpper` as a statement about `Char.toNat`. -/
theorem isUpper_iff (c : Char) : c.isUpper = true ↔ 65 ≤ c.toNat ∧ c.toNat ≤ 90 := by
  simp [Char.isUpper, UInt32.le_def, BitVec.le_def, Char.toNat, UInt32.toNat]

/-- `Char.isLower` as a statement about `Char.toNat`. -/
theorem isLower_iff (c : Char) : c.isLower = true ↔ 97 ≤ c.toNat ∧ c.toNat ≤ 122 := by
  simp [Char.isLower, UInt32.le_def, BitVec.le_def, Char.toNat, UInt32.toNat]

/-- Valid header-field characters stay valid under uppercasing. -/
theorem validHeaderFieldChar_toUpper (c : Char) (h : validHeaderFieldChar c = true) :
    validHeaderFieldChar c.toUpper = true := by
  unfold Char.toUpper
  by_cases hc : 97 ≤ c.toNat ∧ c.toNat ≤ 122
  · rw [if_pos hc]
    have ht : (Char.ofNat (c.toNat - 32)).toNat = c.toNat - 32 := char_toNat_ofNat (by omega)
    have hu : (Char.ofNat (c.toNat - 32)).isUpper = true := by rw [isUpper_iff]; omega
    simp [validHeaderFieldChar, Char.isAlphanum, Char.isAlpha, hu]
  · rw [if_neg hc]; exact h

/-- Valid header-field characters stay valid under lowercasing. -/
theorem validHeaderFieldChar_toLower (c : Char) (h : validHeaderFieldChar c = true) :
    validHeaderFieldChar c.toLower = true := by
  unfold Char.toLower
  by_cases hc : 65 ≤ c.toNat ∧ c.toNat ≤ 90
  · rw [if_pos hc]
    have ht : (Char.ofNat (c.toNat + 32)).toNat = c.toNat + 32 := char_toNat_ofNat (by omega)
    have hl : (Char.ofNat (c.toNat + 32)).isLower = true := by rw [isLower_iff]; omega
    simp [validHeaderFieldChar, Char.isAlphanum, Char.isAlpha, hl]
  · rw [if_neg hc]; exact h

/-- Canonicalization is idempotent on the character list. -/
theorem canonicalizeChars_idem (l : List Char) : ∀ u,
    canonicalizeChars u (canonicalizeChars u l) = canonicalizeChars u l := by
  induction l with
  | nil => intro u; rfl
  | cons c cs ih =>
    intro u
    have hc : (if u then (if u then c.toUpper else c.toLower).toUpper
               else (if u then c.toUpper else c.toLower).toLower) =
              (if u then c.toUpper else c.toLower) := by
      cases u <;> simp [toUpper_toUpper, toLower_toLower]
    simp only [canonicalizeChars, hc]
    rw [ih]

/-- Canonicalization preserves header-field validity of every character. -/
theorem canonicalizeChars_all_valid (l : List Char) : ∀ u,
    l.all validHeaderFieldChar = true →
    (canonicalizeChars u l).all validHeaderFieldChar = true := by
  induction l with
  | nil => intro u _; rfl
  | cons c cs ih =>
    intro u h
    rw [List.all_cons, Bool.and_eq_true] at h
    simp only [canonicalizeChars, List.all_cons, Bool.and_eq_true]
    constructor
    · cases u
      · exact validHeaderFieldChar_toLower c h.1
      · exact validHeaderFieldChar_toUpper c h.1
    · exact ih _ h.2

/-- `canonicalHeaderKey` is idempotent, as Go's `CanonicalHeaderKey` is. -/
theorem canonicalHeaderKey_idem (s : String) :
    canonicalHeaderKey (canonicalHeaderKey s) = canonicalHeaderKey s := by
  unfold canonicalHeaderKey
  by_cases h : s.data.all validHeaderFieldChar = true
  · rw [if_pos h]
    have hv : (String.mk (canonicalizeChars true s.data)).data.all validHeaderFieldChar = true := by
      show (canonicalizeChars true s.data).all validHeaderFieldChar = true
      exact canonicalizeChars_all_valid s.data true h
    rw [if_pos hv]
    show String.mk (canonicalizeChars true (canonicalizeChars true s.data)) = _
    rw [canonicalizeChars_idem]
  · rw [if_neg h, if_neg h]

/-! ## Helper lemmas: association lists and headers -/

/-- Replacing the entries whose key equals `ck` and then searching for key
`ck` yields the replacement exactly when some entry had that key. -/
theorem find?_map_upd {α : Type} (key : α → String) (upd : α) (ck : String)
    (hupd : key upd = ck) (m : List α) :
    (m.map fun p => if key p == ck then upd else p).find? (fun p => key p == ck) =
      if m.any (fun p => key p == ck) then some upd else none := by
  induction m with
  | nil => rfl
  | cons p m ih =>
    simp only [List.map_cons, List.any_cons]
    by_cases hp : (key p == ck) = true
    · simp only [hp, if_true, Bool.true_or]
      rw [List.find?_cons_of_pos]
      show (key upd == ck) = true
      rw [hupd]
      exact beq_self_eq_true ck
    · have hp' : (key p == ck) = false := Bool.not_eq_true _ |>.mp hp
      simp only [hp', Bool.false_or]
      rw [if_neg Bool.false_ne_true]
      rw [List.find?_cons, hp']
      exact ih

/-- Replacing the entries whose key equals `ck` leaves searches for a
different key unchanged. -/
theorem find?_map_upd_other {α : Type} (key : α → String) (upd : α) (ck ck' : String)
    (hupd : key upd = ck) (hne : ck ≠ ck') (m : List α) :
    (m.map fun p => if key p == ck then upd else p).find? (fun p => key p == ck') =
      m.find? (fun p => key p == ck') := by
  have hckck' : (ck == ck') = false := beq_eq_false_iff_ne.mpr hne
  induction m with
  | nil => rfl
  | cons p m ih =>
    simp only [List.map_cons]
    by_cases hp : (key p == ck) = true
    · have hpk : key p = ck := eq_of_beq hp
      simp only [hp, if_true]
      rw [List.find?_cons_of_neg, List.find?_cons_of_neg]
      · exact ih
      · show ¬ (key p == ck') = true
        rw [hpk, hckck']
        exact Bool.false_ne_true
      · show ¬ (key upd == ck') = true
        rw [hupd, hckck']
        exact Bool.false_ne_true
    · have hp' : (key p == ck) = false := Bool.not_eq_true _ |>.mp hp
      simp only [hp']
      rw [if_neg Bool.false_ne_true]
      rw [List.find?_cons, List.find?_cons]
      cases hq : (key p == ck')
      · exact ih
      · rfl

/-- Searching a one-entry list whose key matches succeeds. -/
theorem find?_single_hit {α : Type} (key : α → String) (x : α) (k : String)
    (hx : key x = k) : List.find? (fun p => key p == k) [x] = some x := by
  rw [List.find?_cons_of_pos]
  show (key x == k) = true
  rw [hx]
  exact beq_self_eq_true k

/-- Searching a one-entry list whose key differs fails. -/
theorem find?_single_miss {α : Type} (key : α → String) (x : α) (k : String)
    (hx : key x ≠ k) : List.find? (fun p => key p == k) [x] = none := by
  rw [List.find?_cons_of_neg]
  · rfl
  · show ¬ (key x == k) = true
    rw [beq_eq_false_iff_ne.mpr hx]
    exact Bool.false_ne_true

/-- `Header.get` after `Header.set` at the same key returns the new value. -/
theorem Header.get_set_same (h : Header) (k v : String) : (h.set k v).get k = v := by
  unfold Header.set Header.get
  by_cases hany : h.any (fun p => p.1 == canonicalHeaderKey k) = true
  · rw [if_pos hany]
    rw [find?_map_upd (fun p => p.1) (canonicalHeaderKey k, [v]) (canonicalHeaderKey k) rfl]
    rw [if_pos hany]
    rfl
  · have hany' : h.any (fun p => p.1 == canonicalHeaderKey k) = false :=
      Bool.not_eq_true _ |>.mp hany
    rw [if_neg hany]
    rw [List.find?_append]
    have hnone : h.find? (fun p => p.1 == canonicalHeaderKey k) = none := by
      rw [List.find?_eq_none]
      rw [List.any_eq_false] at hany'
      exact hany'
    rw [hnone, find?_single_hit (fun p => p.1) (canonicalHeaderKey k, [v]) _ rfl]
    rfl

/-- `Header.get` after `Header.set` at a key with a different canonical
form is unchanged. -/
theorem Header.get_set_other (h : Header) (k k' v : String)
    (hne : canonicalHeaderKey k ≠ canonicalHeaderKey k') :
    (h.set k v).get k' = h.get k' := by
  unfold Header.set Header.get
  by_cases hany : h.any (fun p => p.1 == canonicalHeaderKey k) = true
  · rw [if_pos hany]
    rw [find?_map_upd_other (fun p => p.1) (canonicalHeaderKey k, [v])
      (canonicalHeaderKey k) (canonicalHeaderKey k') rfl hne]
  · rw [if_neg hany]
    rw [List.find?_append]
    rw [find?_single_miss (fun p => p.1) (canonicalHeaderKey k, [v]) _ hne]
    cases h.find? (fun p => p.1 == canonicalHeaderKey k') <;> rfl

/-- Two keys with the same canonical form read the same header value. -/
theorem Header.get_congr (h : Header) (k k' : String)
    (hck : canonicalHeaderKey k = canonicalHeaderKey k') : h.get k = h.get k' := by
  unfold Header.get
  rw [hck]

/-- `assocGet` after `assocSet` at the same key returns the new value. -/
theorem assocGet_assocSet_same (m : List (String × String)) (k v : String) :
    assocGet (assocSet m k v) k = some v := by
  unfold assocSet assocGet
  by_cases hany : m.any (fun p => p.1 == k) = true
  · rw [if_pos hany]
    rw [find?_map_upd (fun p => p.1) (k, v) k rfl]
    rw [if_pos hany]
    rfl
  · have hany' : m.any (fun p => p.1 == k) = false := Bool.not_eq_true _ |>.mp hany
    rw [if_neg hany]
    rw [List.find?_append]
    have hnone : m.find? (fun p => p.1 == k) = none := by
      rw [List.find?_eq_none]
      rw [List.any_eq_false] at hany'
      exact hany'
    rw [hnone, find?_single_hit (fun p => p.1) (k, v) _ rfl]
    rfl

/-- `assocGet` after `assocSet` at a different key is unchanged. -/
theorem assocGet_assocSet_other (m : List (String × String)) (k k' v : String)
    (hne : k ≠ k') :
    assocGet (assocSet m k v) k' = assocGet m k' := by
  unfold assocSet assocGet
  by_cases hany : m.any (fun p => p.1 == k) = true
  · rw [if_pos hany]
    rw [find?_map_upd_other (fun p => p.1) (k, v) k k' rfl hne]
  · rw [if_neg hany]
    rw [List.find?_append]
    rw [find?_single_miss (fun p => p.1) (k, v) _ hne]
    cases m.find? (fun p => p.1 == k') <;> rfl

/-! ## Helper lemmas: outbound injection -/

/-- Injection leaves a header untouched when no scope entry shares its
canonical name. -/
theorem injectHeaders_get_frame (sc : List (String × String)) (h : Header) (n : String)
    (hdis : ∀ p ∈ sc, canonicalHeaderKey p.1 ≠ canonicalHeaderKey n) :
    (injectHeaders sc h).get n = h.get n := by
  induction sc generalizing h with
  | nil => rfl
  | cons q sc ih =>
    have hq : canonicalHeaderKey q.1 ≠ canonicalHeaderKey n := hdis q (List.mem_cons_self q sc)
    have htail : ∀ p ∈ sc, canonicalHeaderKey p.1 ≠ canonicalHeaderKey n :=
      fun p hp => hdis p (List.mem_cons_of_mem _ hp)
    show (injectHeaders sc (if Header.get h q.1 == "" then h.set q.1 q.2 else h)).get n = h.get n
    by_cases hc : (Header.get h q.1 == "") = true
    · rw [if_pos hc, ih _ htail, Header.get_set_other _ _ _ _ hq]
    · rw [if_neg hc, ih _ htail]

/-- Injection never overwrites a nonempty pre-existing header value. -/
theorem injectHeaders_get_nonempty (sc : List (String × String)) (h : Header) (n : String)
    (hne : h.get n ≠ "") :
    (injectHeaders sc h).get n = h.get n := by
  induction sc generalizing h with
  | nil => rfl
  | cons q sc ih =>
    show (injectHeaders sc (if Header.get h q.1 == "" then h.set q.1 q.2 else h)).get n = h.get n
    by_cases hck : canonicalHeaderKey q.1 = canonicalHeaderKey n
    · have hqn : Header.get h q.1 = Header.get h n := Header.get_congr h q.1 n hck
      have hcond : (Header.get h q.1 == "") = false := by
        rw [hqn]
        exact beq_eq_false_iff_ne.mpr hne
      simp only [hcond]
      rw [if_neg Bool.false_ne_true]
      exact ih h hne
    · by_cases hc : (Header.get h q.1 == "") = true
      · rw [if_pos hc]
        have hget : (h.set q.1 q.2).get n = h.get n := Header.get_set_other _ _ _ _ hck
        rw [ih _ (by rw [hget]; exact hne)]
        exact hget
      · rw [if_neg hc]
        exact ih h hne

/-- Injection fills a recorded pair into an absent-or-empty header slot
(scope canonical names pairwise distinct, as a Go map guarantees). -/
theorem injectHeaders_get_empty (sc : List (String × String)) (h : Header) (n v : String)
    (hmem : (n, v) ∈ sc)
    (hnd : (sc.map fun p => canonicalHeaderKey p.1).Nodup)
    (hempty : h.get n = "") :
    (injectHeaders sc h).get n = v := by
  induction sc generalizing h with
  | nil => cases hmem
  | cons q sc ih =>
    rw [List.map_cons, List.nodup_cons] at hnd
    show (injectHeaders sc (if Header.get h q.1 == "" then h.set q.1 q.2 else h)).get n = v
    rcases List.mem_cons.mp hmem with hq | hmem'
    · cases hq
      have hcond : (Header.get h n == "") = true := by
        rw [hempty]
        rfl
      rw [if_pos hcond]
      have hdis : ∀ p ∈ sc, canonicalHeaderKey p.1 ≠ canonicalHeaderKey n := by
        intro p hp heq
        exact hnd.1 (heq ▸ List.mem_map_of_mem (fun p => canonicalHeaderKey p.1) hp)
      rw [injectHeaders_get_frame sc _ n hdis]
      exact Header.get_set_same h n v
    · have hqn : canonicalHeaderKey q.1 ≠ canonicalHeaderKey n := by
        intro heq
        apply hnd.1
        have : canonicalHeaderKey n ∈ sc.map fun p => canonicalHeaderKey p.1 :=
          List.mem_map_of_mem (fun p => canonicalHeaderKey p.1) hmem'
        rw [heq]
        exact this
      by_cases hc : (Header.get h q.1 == "") = true
      · rw [if_pos hc]
        refine ih _ hmem' hnd.2 ?_
        rw [Header.get_set_other _ _ _ _ hqn]
        exact hempty
      · rw [if_neg hc]
        exact ih _ hmem' hnd.2 hempty

/-! ## Helper lemmas: extraction without generation -/

/-- When no matching rule with generation enabled sees an empty inbound
value, the extraction fold leaves the request headers untouched, never
advances the generator state, logs nothing, and computes a scope that
does not depend on the incoming generator state. -/
theorem extractFold_noGen (genFun : GenFun) (gens : List (String × String)) (r : Request)
    (rules : List HeaderRule)
    (hng : noGenTriggered rules r = true) :
    ∀ (sc : List (String × String)) (log : List String) (gs₁ gs₂ : GenState),
      (rules.foldl (extractStep genFun gens r)
          { hdr := r.headers, scope := sc, gs := gs₁, genLog := log }).hdr = r.headers ∧
      (rules.foldl (extractStep genFun gens r)
          { hdr := r.headers, scope := sc, gs := gs₁, genLog := log }).scope =
        (rules.foldl (extractStep genFun gens r)
          { hdr := r.headers, scope := sc, gs := gs₂, genLog := log }).scope ∧
      (rules.foldl (extractStep genFun gens r)
          { hdr := r.headers, scope := sc, gs := gs₁, genLog := log }).gs = gs₁ ∧
      (rules.foldl (extractStep genFun gens r)
          { hdr := r.headers, scope := sc, gs := gs₁, genLog := log }).genLog = log := by
  induction rules with
  | nil => intro sc log gs₁ gs₂; exact ⟨rfl, rfl, rfl, rfl⟩
  | cons rule rules ih =>
    rw [noGenTriggered, List.all_cons, Bool.and_eq_true] at hng
    have ihtail := ih hng.2
    intro sc log gs₁ gs₂
    simp only [List.foldl_cons]
    by_cases hm : rule.matchesRequest r.path r.method = true
    · have hstep : ∀ gs, extractStep genFun gens r
          { hdr := r.headers, scope := sc, gs := gs, genLog := log } rule =
          { hdr := r.headers,
            scope := if (r.headers.get (canonicalHeaderKey (trimSpace rule.name)) != "") &&
                        rule.propagate then
                       assocSet sc (canonicalHeaderKey (trimSpace rule.name))
                         (r.headers.get (canonicalHeaderKey (trimSpace rule.name)))
                     else sc,
            gs := gs, genLog := log } := by
        intro gs
        have hng1 := hng.1
        rw [Bool.not_eq_eq_eq_not, Bool.not_true, hm, Bool.true_and,
          Bool.and_eq_false_iff] at hng1
        unfold extractStep
        rw [if_neg (by rw [hm]; intro hfalse; simp at hfalse)]
        have hcond : (r.headers.get (canonicalHeaderKey (trimSpace rule.name)) == "" &&
            rule.generate) = false := by
          rcases hng1 with hg | hv
          · rw [hg, Bool.and_false]
          · rw [hv, Bool.false_and]
        simp only [hcond]
        rfl
      rw [hstep gs₁, hstep gs₂]
      exact ihtail _ _ gs₁ gs₂
    · have hstep : ∀ gs, extractStep genFun gens r
          { hdr := r.headers, scope := sc, gs := gs, genLog := log } rule =
          { hdr := r.headers, scope := sc, gs := gs, genLog := log } := by
        intro gs
        unfold extractStep
        rw [if_pos]
        rw [Bool.not_eq_true] at hm
        rw [hm]
        rfl
      rw [hstep gs₁, hstep gs₂]
      exact ihtail _ _ gs₁ gs₂

/-! ## Claim C1: per-request isolation over reused connections -/

/-- C1. Per-request isolation over reused connections: handling requests
A then B on the same handler and pooled transport shares only the
generator state between the two requests; the headers injected upstream
for B are exactly those computed from B's own RequestScope carrier, and
(two-run property) whenever B triggers no value generation, they coincide
with the headers injected when B is handled alone from the same initial
state. No header value recorded for A is injected into B. -/
theorem request_isolation_two_run (genFun : GenFun) (rules : List HeaderRule)
    (gs : GenState) (A B : Request) :
    processSeq genFun (mkGenerators rules) rules gs [A, B] =
      [(processOne genFun (mkGenerators rules) rules gs A).1,
       (processOne genFun (mkGenerators rules) rules
         (processOne genFun (mkGenerators rules) rules gs A).2 B).1] ∧
    (noGenTriggered rules B = true →
      (processOne genFun (mkGenerators rules) rules
          (processOne genFun (mkGenerators rules) rules gs A).2 B).1 =
        (processOne genFun (mkGenerators rules) rules gs B).1) := by
  constructor
  · rfl
  · intro hng
    have key : ∀ s₁ s₂ : GenState,
        (processOne genFun (mkGenerators rules) rules s₁ B).1 =
          (processOne genFun (mkGenerators rules) rules s₂ B).1 := by
      intro s₁ s₂
      have h₁ := extractFold_noGen genFun (mkGenerators rules) B rules hng [] [] s₁ s₂
      have h₂ := extractFold_noGen genFun (mkGenerators rules) B rules hng [] [] s₂ s₁
      unfold processOne roundTrip getHeadersFromContext
      simp only
      unfold extractHeaders
      rw [h₁.1, h₂.1, h₁.2.1]
    exact key _ gs

/-- C1 witness: concrete two-run equality on the reused connection,
obtained from the isolation theorem with its hypothesis discharged. -/
theorem request_isolation_two_run_witness :
    noGenTriggered w1Rules w1B = true ∧
    (processOne w1Gen (mkGenerators w1Rules) w1Rules
        (processOne w1Gen (mkGenerators w1Rules) w1Rules 0 w1A).2 w1B).1 =
      (processOne w1Gen (mkGenerators w1Rules) w1Rules 0 w1B).1 :=
  ⟨by decide, (request_isolation_two_run w1Gen w1Rules 0 w1A w1B).2 (by decide)⟩

/-! ## Claim C2: RequestScope recording condition -/

/-- C2. The recording condition fails for `"propagate": false`: the
parser's defaulting branch (`if !rules[i].Propagate` then set true)
cannot distinguish a declared false from an omitted field, so it forces
`Propagate` to true on every parsed rule; with the structured input
declaring `propagate: false` for `x-secret` and an inbound request
carrying `x-secret: v`, the pair is nevertheless recorded in the
RequestScope, contradicting the claim (and the parser's own comment that
an explicit `"propagate": false` disables propagation). -/
theorem propagate_false_still_recorded :
    (parseHeaderRules (fun _ => Except.error "unused")
        [{ name := "x-secret", generate := false, generatorType := "",
           propagate := some false, pathRegex := "", methods := [] }]).map
      (fun rules =>
        (rules.map (fun r => r.propagate),
         (extractHeaders (fun _ s => ("", s)) (mkGenerators rules) rules
            { method := "GET", path := "/", headers := [("X-Secret", ["v"])] } 0).scope)) =
      Except.ok ([true], [("X-Secret", "v")]) := by rfl

/-! ## Claim C3: additive, non-overwriting outbound injection -/

/-- C3 counterexample: an outbound request that already carries the
header name `X-Tenant-Id` (entry present, empty value) still has the
header set by the injection loop — `RoundTrip` tests `Get(name) == ""`,
which cannot distinguish an absent name from a carried-but-empty one —
so "set if and only if the request does not already carry that header
name" and "a pre-existing value for that name is left unchanged" are
both false as stated. -/
theorem inject_overwrites_carried_empty_header :
    (([("X-Tenant-Id", [""])] : Header).any (fun p => p.1 == "X-Tenant-Id")) = true ∧
    Header.get [("X-Tenant-Id", [""])] "X-Tenant-Id" = "" ∧
    (roundTrip { headers := [("X-Tenant-Id", [""])],
                 carrier := some [("X-Tenant-Id", "t1")] }).get "X-Tenant-Id" = "t1" :=
  ⟨rfl, rfl, rfl⟩

/-- C3 (amended). Additive injection up to empty values: for every
outbound request passing through the transport with carrier scope `sc`
(canonical names pairwise distinct, as the Go map guarantees), a recorded
pair is written exactly when the request's current value for that name is
empty (absent or carried with an empty value); a nonempty pre-existing
value is left unchanged, and names not recorded in the scope are not
modified. -/
theorem inject_additive_no_overwrite (sc : List (String × String)) (h : Header) (n v : String)
    (hnd : (sc.map fun p => canonicalHeaderKey p.1).Nodup) :
    ((n, v) ∈ sc → h.get n = "" →
       (roundTrip { headers := h, carrier := some sc }).get n = v) ∧
    ((n, v) ∈ sc → h.get n ≠ "" →
       (roundTrip { headers := h, carrier := some sc }).get n = h.get n) ∧
    ((∀ p ∈ sc, canonicalHeaderKey p.1 ≠ canonicalHeaderKey n) →
       (roundTrip { headers := h, carrier := some sc }).get n = h.get n) := by
  refine ⟨?_, ?_, ?_⟩
  · intro hmem hempty
    exact injectHeaders_get_empty sc h n v hmem hnd hempty
  · intro hmem hne
    exact injectHeaders_get_nonempty sc h n hne
  · intro hdis
    exact injectHeaders_get_frame sc h n hdis

/-- C3 witness: the amended theorem applied at a concrete scope and
request. -/
theorem inject_additive_no_overwrite_witness :
    ([("X-Request-Id", "abc")].map fun p => canonicalHeaderKey p.1).Nodup ∧
    (roundTrip { headers := [("X-Other", ["o"])],
                 carrier := some [("X-Request-Id", "abc")] }).get "X-Request-Id" = "abc" :=
  ⟨by decide,
   (inject_additive_no_overwrite [("X-Request-Id", "abc")] [("X-Other", ["o"])]
      "X-Request-Id" "abc" (by decide)).1 (by decide) (by decide)⟩

/-! ## Helper lemmas: extraction, rule by rule -/

/-- One extraction step for a rule with a different canonical trimmed name
leaves the observables at `cn` (forwarded header value, recorded scope
entry, generation log membership) unchanged. `cn` is a canonical image,
so it is fixed by canonicalization. -/
theorem extractStep_preserves (genFun : GenFun) (gens : List (String × String)) (r : Request)
    (st : ExtractState) (rule' : HeaderRule) (cn : String)
    (hidem : canonicalHeaderKey cn = cn)
    (hcn : canonicalHeaderKey (trimSpace rule'.name) ≠ cn) :
    ((extractStep genFun gens r st rule').hdr.get cn = st.hdr.get cn) ∧
    (assocGet (extractStep genFun gens r st rule').scope cn = assocGet st.scope cn) ∧
    ((cn ∈ (extractStep genFun gens r st rule').genLog) ↔ cn ∈ st.genLog) := by
  have hck : canonicalHeaderKey (canonicalHeaderKey (trimSpace rule'.name)) ≠
      canonicalHeaderKey cn := by
    rw [canonicalHeaderKey_idem, hidem]
    exact hcn
  have hmemlog : ∀ log : List String,
      (cn ∈ log ++ [canonicalHeaderKey (trimSpace rule'.name)]) ↔ cn ∈ log := by
    intro log
    rw [List.mem_append, List.mem_singleton]
    constructor
    · intro hin
      rcases hin with hin | hin
      · exact hin
      · exact absurd hin.symm hcn
    · exact Or.inl
  unfold extractStep
  by_cases hm : (!(rule'.matchesRequest r.path r.method)) = true
  · rw [if_pos hm]
    exact ⟨rfl, rfl, Iff.rfl⟩
  · rw [if_neg hm]
    simp only
    by_cases hcond : ((st.hdr.get (canonicalHeaderKey (trimSpace rule'.name)) == "") &&
        rule'.generate) = true
    · rw [if_pos hcond]
      cases hlk : assocGet gens (canonicalHeaderKey (trimSpace rule'.name)) with
      | some gt =>
        simp only [hlk]
        refine ⟨Header.get_set_other _ _ _ _ hck, ?_, hmemlog st.genLog⟩
        by_cases hsc : (((genFun gt st.gs).1 != "") && rule'.propagate) = true
        · rw [if_pos hsc]
          exact assocGet_assocSet_other _ _ _ _ hcn
        · rw [if_neg hsc]
      | none =>
        refine ⟨?_, ?_, ?_⟩
        · simp only [hlk]
        · simp only [hlk]
          by_cases hsc : ((st.hdr.get (canonicalHeaderKey (trimSpace rule'.name)) != "") &&
              rule'.propagate) = true
          · rw [if_pos hsc]
            exact assocGet_assocSet_other _ _ _ _ hcn
          · rw [if_neg hsc]
        · simp only [hlk]
    · rw [if_neg hcond]
      refine ⟨rfl, ?_, Iff.rfl⟩
      by_cases hsc : ((st.hdr.get (canonicalHeaderKey (trimSpace rule'.name)) != "") &&
          rule'.propagate) = true
      · rw [if_pos hsc]
        exact assocGet_assocSet_other _ _ _ _ hcn
      · rw [if_neg hsc]

/-- Folding extraction over rules none of which has canonical trimmed
name `cn` preserves the observables at `cn`. -/
theorem extractFold_preserves (genFun : GenFun) (gens : List (String × String)) (r : Request)
    (l : List HeaderRule) (cn : String)
    (hidem : canonicalHeaderKey cn = cn)
    (hall : ∀ ru ∈ l, canonicalHeaderKey (trimSpace ru.name) ≠ cn) :
    ∀ st : ExtractState,
      ((l.foldl (extractStep genFun gens r) st).hdr.get cn = st.hdr.get cn) ∧
      (assocGet (l.foldl (extractStep genFun gens r) st).scope cn = assocGet st.scope cn) ∧
      ((cn ∈ (l.foldl (extractStep genFun gens r) st).genLog) ↔ cn ∈ st.genLog) := by
  induction l with
  | nil => intro st; exact ⟨rfl, rfl, Iff.rfl⟩
  | cons ru l ih =>
    intro st
    have hstep := extractStep_preserves genFun gens r st ru cn hidem
      (hall ru (List.mem_cons_self ru l))
    have ihtail := ih (fun q hq => hall q (List.mem_cons_of_mem _ hq))
      (extractStep genFun gens r st ru)
    simp only [List.foldl_cons]
    exact ⟨ihtail.1.trans hstep.1, ihtail.2.1.trans hstep.2.1,
      ihtail.2.2.trans hstep.2.2⟩

/-- Folding the generators-map construction over rules whose canonical
names all differ from `k` preserves the lookup at `k`. -/
theorem mkGeneratorsFold_preserves (l : List HeaderRule) (k : String)
    (hall : ∀ ru ∈ l, canonicalHeaderKey ru.name ≠ k) :
    ∀ acc : List (String × String),
      assocGet (l.foldl
        (fun m ru => if ru.generate then
           assocSet m (canonicalHeaderKey ru.name) ru.generatorType else m) acc) k =
        assocGet acc k := by
  induction l with
  | nil => intro acc; rfl
  | cons ru l ih =>
    intro acc
    have ihtail := ih (fun q hq => hall q (List.mem_cons_of_mem _ hq))
    simp only [List.foldl_cons]
    rw [ihtail]
    by_cases hg : ru.generate = true
    · rw [if_pos hg]
      exact assocGet_assocSet_other _ _ _ _ (hall ru (List.mem_cons_self ru l))
    · rw [if_neg hg]

/-- The generators map built by `NewProxyHandler` maps the canonical name
of each generating rule to that rule's generator type, provided the
canonical rule names are pairwise distinct. -/
theorem mkGenerators_get (rules : List HeaderRule) (rule : HeaderRule)
    (hmem : rule ∈ rules)
    (hnd : (rules.map fun ru => canonicalHeaderKey ru.name).Nodup)
    (hg : rule.generate = true) :
    assocGet (mkGenerators rules) (canonicalHeaderKey rule.name) = some rule.generatorType := by
  obtain ⟨l1, l2, hsplit⟩ := List.append_of_mem hmem
  subst hsplit
  rw [List.map_append, List.map_cons] at hnd
  have hl2 : ∀ ru ∈ l2, canonicalHeaderKey ru.name ≠ canonicalHeaderKey rule.name := by
    intro ru hru heq
    have hnd2 := (List.nodup_append.mp hnd).2.1
    rw [List.nodup_cons] at hnd2
    exact hnd2.1 (heq ▸ List.mem_map_of_mem (fun ru => canonicalHeaderKey ru.name) hru)
  unfold mkGenerators
  rw [List.foldl_append, List.foldl_cons, if_pos hg]
  rw [mkGeneratorsFold_preserves l2 _ hl2]
  exact assocGet_assocSet_same _ _ _

/-- The extraction step at a matching rule whose header is present with a
nonempty value: nothing is generated, the headers pass through, and the
pair is recorded when propagation is enabled. -/
theorem extractStep_at_present (genFun : GenFun) (gens : List (String × String)) (r : Request)
    (st : ExtractState) (rule : HeaderRule)
    (hmatch : rule.matchesRequest r.path r.method = true)
    (hprop : rule.propagate = true)
    (hv : st.hdr.get (canonicalHeaderKey (trimSpace rule.name)) ≠ "") :
    extractStep genFun gens r st rule =
      { hdr := st.hdr,
        scope := assocSet st.scope (canonicalHeaderKey (trimSpace rule.name))
                   (st.hdr.get (canonicalHeaderKey (trimSpace rule.name))),
        gs := st.gs, genLog := st.genLog } := by
  unfold extractStep
  rw [if_neg (by rw [hmatch]; intro hfalse; simp at hfalse)]
  have hbe : (st.hdr.get (canonicalHeaderKey (trimSpace rule.name)) == "") = false :=
    beq_eq_false_iff_ne.mpr hv
  simp only [hbe, Bool.false_and]
  rw [if_neg Bool.false_ne_true]
  have hne : (st.hdr.get (canonicalHeaderKey (trimSpace rule.name)) != "") = true := by
    rw [bne, hbe]
    rfl
  simp only [hne, hprop, Bool.and_true]
  rw [if_pos trivial]

/-- The extraction step at a matching generating rule whose header is
absent or empty and whose generator is configured: a value is generated,
set on the forwarded headers, and logged. -/
theorem extractStep_at_absent (genFun : GenFun) (gens : List (String × String)) (r : Request)
    (st : ExtractState) (rule : HeaderRule) (gt : String)
    (hmatch : rule.matchesRequest r.path r.method = true)
    (hgen : rule.generate = true)
    (hv : st.hdr.get (canonicalHeaderKey (trimSpace rule.name)) = "")
    (hlk : assocGet gens (canonicalHeaderKey (trimSpace rule.name)) = some gt) :
    extractStep genFun gens r st rule =
      { hdr := st.hdr.set (canonicalHeaderKey (trimSpace rule.name)) (genFun gt st.gs).1,
        scope := if ((genFun gt st.gs).1 != "") && rule.propagate then
                   assocSet st.scope (canonicalHeaderKey (trimSpace rule.name))
                     (genFun gt st.gs).1
                 else st.scope,
        gs := (genFun gt st.gs).2,
        genLog := st.genLog ++ [canonicalHeaderKey (trimSpace rule.name)] } := by
  unfold extractStep
  rw [if_neg (by rw [hmatch]; intro hfalse; simp at hfalse)]
  have hbe : (st.hdr.get (canonicalHeaderKey (trimSpace rule.name)) == "") = true := by
    rw [hv]
    rfl
  simp only [hbe, hgen, Bool.true_and]
  rw [if_pos trivial]
  simp only [hlk]

/-! ## Claim C4: generation only fills absence -/

/-- C4. Generation only fills absence: for a matching rule with
generation enabled (rule names canonical-wise distinct and free of
surrounding whitespace, as the parser's validation guarantees), a value
is synthesized — observable in the extraction log — exactly when the
named header is absent or empty on the inbound request; when the header
arrives with a nonempty value v, the forwarded request still carries v
and the RequestScope records v, never a freshly generated value. -/
theorem generation_only_fills_absence (genFun : GenFun) (rules : List HeaderRule)
    (r : Request) (gs : GenState) (rule : HeaderRule)
    (hmem : rule ∈ rules)
    (hnd : (rules.map fun ru => canonicalHeaderKey (trimSpace ru.name)).Nodup)
    (htrim : ∀ ru ∈ rules, trimSpace ru.name = ru.name)
    (hgen : rule.generate = true)
    (hprop : rule.propagate = true)
    (hmatch : rule.matchesRequest r.path r.method = true) :
    ((canonicalHeaderKey (trimSpace rule.name)) ∈
        (extractHeaders genFun (mkGenerators rules) rules r gs).genLog ↔
      r.headers.get (canonicalHeaderKey (trimSpace rule.name)) = "") ∧
    (r.headers.get (canonicalHeaderKey (trimSpace rule.name)) ≠ "" →
      (extractHeaders genFun (mkGenerators rules) rules r gs).hdr.get
          (canonicalHeaderKey (trimSpace rule.name)) =
        r.headers.get (canonicalHeaderKey (trimSpace rule.name)) ∧
      assocGet (extractHeaders genFun (mkGenerators rules) rules r gs).scope
          (canonicalHeaderKey (trimSpace rule.name)) =
        some (r.headers.get (canonicalHeaderKey (trimSpace rule.name)))) := by
  have hidem : canonicalHeaderKey (canonicalHeaderKey (trimSpace rule.name)) =
      canonicalHeaderKey (trimSpace rule.name) := canonicalHeaderKey_idem _
  have hnd0 := hnd
  have hcnName : canonicalHeaderKey (trimSpace rule.name) = canonicalHeaderKey rule.name := by
    rw [htrim rule hmem]
  obtain ⟨l1, l2, rfl⟩ := List.append_of_mem hmem
  rw [List.map_append, List.map_cons, List.nodup_append] at hnd
  have hl1 : ∀ ru ∈ l1, canonicalHeaderKey (trimSpace ru.name) ≠
      canonicalHeaderKey (trimSpace rule.name) := by
    intro ru hru heq
    exact hnd.2.2 (List.mem_map_of_mem _ hru) (by rw [heq]; exact List.mem_cons_self _ _)
  have hl2 : ∀ ru ∈ l2, canonicalHeaderKey (trimSpace ru.name) ≠
      canonicalHeaderKey (trimSpace rule.name) := by
    intro ru hru heq
    have h := hnd.2.1
    rw [List.nodup_cons] at h
    exact h.1 (heq ▸ List.mem_map_of_mem _ hru)
  unfold extractHeaders
  rw [List.foldl_append, List.foldl_cons]
  have hpre := extractFold_preserves genFun (mkGenerators (l1 ++ rule :: l2)) r l1
    (canonicalHeaderKey (trimSpace rule.name)) hidem hl1
    { hdr := r.headers, scope := [], gs := gs, genLog := [] }
  by_cases hv : r.headers.get (canonicalHeaderKey (trimSpace rule.name)) = ""
  · have hgensnd : ((l1 ++ rule :: l2).map fun ru => canonicalHeaderKey ru.name).Nodup := by
      have hmapeq : ((l1 ++ rule :: l2).map fun ru => canonicalHeaderKey ru.name) =
          ((l1 ++ rule :: l2).map fun ru => canonicalHeaderKey (trimSpace ru.name)) :=
        List.map_congr_left (fun ru hru => by rw [htrim ru hru])
      rw [hmapeq]
      exact hnd0
    have hlk : assocGet (mkGenerators (l1 ++ rule :: l2))
        (canonicalHeaderKey (trimSpace rule.name)) = some rule.generatorType := by
      rw [hcnName]
      exact mkGenerators_get _ _ hmem hgensnd hgen
    have hstep := extractStep_at_absent genFun (mkGenerators (l1 ++ rule :: l2)) r
      (List.foldl (extractStep genFun (mkGenerators (l1 ++ rule :: l2)) r)
        { hdr := r.headers, scope := [], gs := gs, genLog := [] } l1)
      rule rule.generatorType hmatch hgen (by rw [hpre.1]; exact hv) hlk
    rw [hstep]
    constructor
    · refine iff_of_true ?_ hv
      rw [(extractFold_preserves genFun (mkGenerators (l1 ++ rule :: l2)) r l2
        (canonicalHeaderKey (trimSpace rule.name)) hidem hl2 _).2.2]
      simp
    · intro hvne
      exact absurd hv hvne
  · have hstep := extractStep_at_present genFun (mkGenerators (l1 ++ rule :: l2)) r
      (List.foldl (extractStep genFun (mkGenerators (l1 ++ rule :: l2)) r)
        { hdr := r.headers, scope := [], gs := gs, genLog := [] } l1)
      rule hmatch hprop (by rw [hpre.1]; exact hv)
    rw [hstep]
    constructor
    · refine iff_of_false ?_ hv
      rw [(extractFold_preserves genFun (mkGenerators (l1 ++ rule :: l2)) r l2
        (canonicalHeaderKey (trimSpace rule.name)) hidem hl2 _).2.2]
      simp only
      rw [hpre.2.2]
      simp
    · intro _
      constructor
      · rw [(extractFold_preserves genFun (mkGenerators (l1 ++ rule :: l2)) r l2
          (canonicalHeaderKey (trimSpace rule.name)) hidem hl2 _).1]
        simp only
        exact hpre.1
      · rw [(extractFold_preserves genFun (mkGenerators (l1 ++ rule :: l2)) r l2
          (canonicalHeaderKey (trimSpace rule.name)) hidem hl2 _).2.1]
        simp only
        rw [assocGet_assocSet_same, hpre.1]

/-- C4 witness: with the header present inbound, the forwarded value and
the recorded scope value are the inbound value, not a generated one. -/
theorem generation_only_fills_absence_witness :
    w4Req.headers.get (canonicalHeaderKey (trimSpace w4Rule.name)) ≠ "" ∧
    (extractHeaders w1Gen (mkGenerators w4Rules) w4Rules w4Req 0).hdr.get
        (canonicalHeaderKey (trimSpace w4Rule.name)) =
      w4Req.headers.get (canonicalHeaderKey (trimSpace w4Rule.name)) ∧
    assocGet (extractHeaders w1Gen (mkGenerators w4Rules) w4Rules w4Req 0).scope
        (canonicalHeaderKey (trimSpace w4Rule.name)) =
      some (w4Req.headers.get (canonicalHeaderKey (trimSpace w4Rule.name))) := by
  have h := (generation_only_fills_absence w1Gen w4Rules w4Req 0 w4Rule
    (List.mem_singleton.mpr rfl) (by decide) (by decide) rfl rfl (by decide)).2 (by decide)
  exact ⟨by decide, h.1, h.2⟩

/-! ## Claim C5: forward-proxy routing of absolute-form requests -/

/-- C5. An absolute-form (forward-proxy shape) non-CONNECT request is
dispatched to the proxy handler and then rewritten by the single-host
reverse-proxy director: its URL host becomes the configured upstream
application address, not the absolute target named in the request line —
the forwarder sends the request to the upstream app, contradicting the
claimed routing to the remote service. -/
theorem absolute_form_rerouted_to_upstream :
    muxRoute "GET" "/api/orders" = Route.proxy ∧
    director (newProxyHandlerTarget "localhost:8080")
        { scheme := "http", host := "service-b:8080", path := "/api/orders" } =
      { scheme := "http", host := "localhost:8080", path := "/api/orders" } ∧
    ("localhost:8080" : String) ≠ "service-b:8080" :=
  ⟨by decide, by decide, by decide⟩

/-! ## Claim C6: CONNECT tunneling -/

/-- C6. A CONNECT request (authority-form target, so its URL path is
empty) matches none of the mux patterns `/healthz`, `/ready`, `/`
registered by `NewServer` — the ServeMux does not clean CONNECT paths —
and is answered by the not-found handler with status 404; no TCP tunnel
is established and no `200 Connection Established` is sent,
contradicting the claimed CONNECT tunneling. -/
theorem connect_request_not_tunneled :
    muxRoute "CONNECT" "" = Route.notFound ∧ notFoundStatus = 404 :=
  ⟨by decide, rfl⟩

/-! ## Claim C7: injector idempotence -/

/-- C7. The admission mutation is idempotent: applying the defaulter
twice yields the same pod as applying it once, and a pod that already
carries the injected marker or a container named like the forwarder
passes through entirely unmodified. -/
theorem pod_default_idempotent (img : String) (pod : Pod) :
    podDefault img (podDefault img pod) = podDefault img pod ∧
    (isAlreadyInjected pod = true → podDefault img pod = pod) := by
  have hskip : ∀ q : Pod, isAlreadyInjected q = true → podDefault img q = q := by
    intro q hq
    unfold podDefault
    by_cases h1 : (!shouldInject q) = true
    · rw [if_pos h1]
    · rw [if_neg h1]
      by_cases h2 : (extractHeadersAnn q == []) = true
      · rw [if_pos h2]
      · rw [if_neg h2, if_pos hq]
  refine ⟨?_, hskip pod⟩
  by_cases h1 : (!shouldInject pod) = true
  · have e : podDefault img pod = pod := by unfold podDefault; rw [if_pos h1]
    rw [e, e]
  · by_cases h2 : (extractHeadersAnn pod == []) = true
    · have e : podDefault img pod = pod := by unfold podDefault; rw [if_neg h1, if_pos h2]
      rw [e, e]
    · by_cases h3 : isAlreadyInjected pod = true
      · have e : podDefault img pod = pod := hskip pod h3
        rw [e, e]
      · have e : podDefault img pod =
            markAsInjected (modifyAppContainers (injectSidecar img pod (extractHeadersAnn pod))) := by
          unfold podDefault
          rw [if_neg h1, if_neg h2, if_neg h3]
        rw [e]
        apply hskip
        unfold isAlreadyInjected markAsInjected
        simp only
        rw [show (modifyAppContainers (injectSidecar img pod (extractHeadersAnn pod))).annotations =
          pod.annotations from rfl]
        rw [assocGet_assocSet_same]
        rfl

/-- C7 witness: a marked pod passes through the defaulter unmodified. -/
theorem pod_default_idempotent_witness :
    isAlreadyInjected w7Pod = true ∧ podDefault "img" w7Pod = w7Pod :=
  ⟨by decide, (pod_default_idempotent "img" w7Pod).2 (by decide)⟩

/-! ## Claim C8: injector target-port validation (modelled from the spec) -/

/-- C8. Target-port validation: for every pod whose target-port
annotation is present but invalid — non-numeric, outside 1..65535, or
equal to the forwarder listener port 9090 — the (spec-modelled) current
injector resolves the sidecar target port to the default 8080, wires
`TARGET_HOST=localhost:8080`, and adds the warning annotation instead of
wiring the invalid value. -/
theorem invalid_target_port_falls_back (img : String) (pod : Pod) (hs : List String)
    (p : String)
    (hann : assocGet pod.annotations annotationTargetPort = some p)
    (hbad : parsePortInt p = none ∨
      ∃ n : Int, parsePortInt p = some n ∧ (n < 1 ∨ n > 65535 ∨ n = 9090)) :
    resolveTargetPort pod.annotations = (defaultTargetPort, true) ∧
    (injectSidecarValidated img pod hs).annotations =
      assocSet pod.annotations annotationTargetPortWarning
        "invalid target-port annotation, falling back to default" ∧
    (injectSidecarValidated img pod hs).containers =
      pod.containers ++ [sidecarContainer img hs defaultTargetPort] ∧
    ("TARGET_HOST", "localhost:8080") ∈ (sidecarContainer img hs defaultTargetPort).env := by
  have herr : ∃ e, validateTargetPort p = .error e := by
    unfold validateTargetPort
    rcases hbad with h | ⟨n, hn, hcase⟩
    · rw [h]
      exact ⟨_, rfl⟩
    · simp only [hn]
      rcases hcase with h1 | h2 | h3
      · rw [if_pos (by rw [decide_eq_true h1]; exact Bool.true_or _)]
        exact ⟨_, rfl⟩
      · rw [if_pos (by rw [decide_eq_true h2]; exact Bool.or_true _)]
        exact ⟨_, rfl⟩
      · subst h3
        rw [if_neg (by decide)]
        rw [if_pos (by decide)]
        exact ⟨_, rfl⟩
  obtain ⟨e, he⟩ := herr
  have hres : resolveTargetPort pod.annotations = (defaultTargetPort, true) := by
    unfold resolveTargetPort
    simp only [hann, he]
  refine ⟨hres, ?_, ?_, ?_⟩
  · unfold injectSidecarValidated
    rw [hres]
    rfl
  · unfold injectSidecarValidated
    rw [hres]
  · unfold sidecarContainer
    simp only
    exact List.mem_cons_of_mem _ (List.mem_cons_self _ _)

/-- C8 witness: a target-port annotation equal to the listener port 9090
falls back to the default and adds the warning annotation. -/
theorem invalid_target_port_falls_back_witness :
    assocGet w8Pod.annotations annotationTargetPort = some "9090" ∧
    resolveTargetPort w8Pod.annotations = (defaultTargetPort, true) ∧
    (injectSidecarValidated "img" w8Pod ["x-a"]).annotations =
      assocSet w8Pod.annotations annotationTargetPortWarning
        "invalid target-port annotation, falling back to default" := by
  have h := invalid_target_port_falls_back "img" w8Pod ["x-a"] "9090" (by decide)
    (Or.inr ⟨9090, by decide, Or.inr (Or.inr rfl)⟩)
  exact ⟨by decide, h.1, h.2.1⟩

/-! ## Helper lemmas: ULID encoding arithmetic -/

/-- Masking with 31 is reduction modulo 32. -/
theorem land31 (n : Nat) : n &&& 31 = n % 32 := by
  have h : (31 : Nat) = 2 ^ 5 - 1 := rfl
  rw [h, Nat.and_pow_two_sub_one_eq_mod]

/-- A 5-bit group of the shifted value is a base-32 digit. -/
theorem shiftand (n k : Nat) : (n >>> (5 * k)) &&& 31 = n / 32 ^ k % 32 := by
  rw [Nat.shiftRight_eq_div_pow, land31, Nat.pow_mul]

/-- The ten timestamp characters are the base-32 digits of the
millisecond count, most significant first, through the alphabet. -/
theorem ulidTimeChars_eq (ms : Nat) :
    ulidTimeChars ms = (digitsBE 10 ms).map crockfordChar := by
  have h9 : (ms >>> 45) &&& 31 = ms / 32 ^ 9 % 32 := shiftand ms 9
  have h8 : (ms >>> 40) &&& 31 = ms / 32 ^ 8 % 32 := shiftand ms 8
  have h7 : (ms >>> 35) &&& 31 = ms / 32 ^ 7 % 32 := shiftand ms 7
  have h6 : (ms >>> 30) &&& 31 = ms / 32 ^ 6 % 32 := shiftand ms 6
  have h5 : (ms >>> 25) &&& 31 = ms / 32 ^ 5 % 32 := shiftand ms 5
  have h4 : (ms >>> 20) &&& 31 = ms / 32 ^ 4 % 32 := shiftand ms 4
  have h3 : (ms >>> 15) &&& 31 = ms / 32 ^ 3 % 32 := shiftand ms 3
  have h2 : (ms >>> 10) &&& 31 = ms / 32 ^ 2 % 32 := shiftand ms 2
  have h1 : (ms >>> 5) &&& 31 = ms / 32 ^ 1 % 32 := shiftand ms 1
  have h0 : (ms >>> 0) &&& 31 = ms / 32 ^ 0 % 32 := shiftand ms 0
  simp only [ulidTimeChars, digitsBE, List.map, h9, h8, h7, h6, h5, h4, h3, h2, h1, h0]

/-- Every base-32 digit is below 32. -/
theorem digitsBE_bounded (k m : Nat) : ∀ x ∈ digitsBE k m, x < 32 := by
  induction k with
  | zero => intro x hx; cases hx
  | succ k ih =>
    intro x hx
    rcases List.mem_cons.mp hx with hx | hx
    · subst hx
      exact Nat.mod_lt _ (by norm_num)
    · exact ih x hx

/-- The digit list has length `k`. -/
theorem digitsBE_length (k m : Nat) : (digitsBE k m).length = k := by
  induction k with
  | zero => rfl
  | succ k ih => simp [digitsBE, ih]

/-- Strictly larger values (modulo `32 ^ k`) have lexicographically
strictly larger big-endian digit lists. -/
theorem digitsBE_lt : ∀ k m n : Nat, m % 32 ^ k < n % 32 ^ k →
    List.lt (digitsBE k m) (digitsBE k n) := by
  intro k
  induction k with
  | zero =>
    intro m n h
    rw [Nat.pow_zero, Nat.mod_one, Nat.mod_one] at h
    exact absurd h (lt_irrefl 0)
  | succ k ih =>
    intro m n h
    have hm : m % 32 ^ (k + 1) / 32 ^ k = m / 32 ^ k % 32 := by
      rw [Nat.pow_succ]
      exact Nat.mod_mul_right_div_self m (32 ^ k) 32
    have hn : n % 32 ^ (k + 1) / 32 ^ k = n / 32 ^ k % 32 := by
      rw [Nat.pow_succ]
      exact Nat.mod_mul_right_div_self n (32 ^ k) 32
    by_cases hq : m / 32 ^ k % 32 < n / 32 ^ k % 32
    · exact List.lt.head _ _ hq
    · have hle : m / 32 ^ k % 32 ≤ n / 32 ^ k % 32 := by
        rw [← hm, ← hn]
        exact Nat.div_le_div_right (le_of_lt h)
      have heq : m / 32 ^ k % 32 = n / 32 ^ k % 32 :=
        Nat.le_antisymm hle (Nat.not_lt.mp hq)
      refine List.lt.tail (by rw [heq]; exact lt_irrefl _)
        (by rw [heq]; exact lt_irrefl _) (ih m n ?_)
      have e1 : m % 32 ^ (k + 1) % 32 ^ k = m % 32 ^ k :=
        Nat.mod_mod_of_dvd m (pow_dvd_pow 32 (Nat.le_succ k))
      have e2 : n % 32 ^ (k + 1) % 32 ^ k = n % 32 ^ k :=
        Nat.mod_mod_of_dvd n (pow_dvd_pow 32 (Nat.le_succ k))
      have hQ : m % 32 ^ (k + 1) / 32 ^ k = n % 32 ^ (k + 1) / 32 ^ k := by
        rw [hm, hn]
        exact heq
      have hsum : 32 ^ k * (m % 32 ^ (k + 1) / 32 ^ k) + m % 32 ^ (k + 1) % 32 ^ k <
          32 ^ k * (n % 32 ^ (k + 1) / 32 ^ k) + n % 32 ^ (k + 1) % 32 ^ k := by
        rw [Nat.div_add_mod, Nat.div_add_mod]
        exact h
      rw [hQ] at hsum
      rw [← e1, ← e2]
      exact Nat.lt_of_add_lt_add_left hsum

/-- The alphabet is strictly increasing on digit indices. -/
theorem crockfordChar_mono_fin : ∀ a b : Fin 32, a < b →
    crockfordChar a.val < crockfordChar b.val := by decide

/-- The alphabet is strictly increasing on digits. -/
theorem crockfordChar_mono (a b : Nat) (ha : a < 32) (hb : b < 32) (h : a < b) :
    crockfordChar a < crockfordChar b :=
  crockfordChar_mono_fin ⟨a, ha⟩ ⟨b, hb⟩ h

/-- Mapping digit lists through the alphabet preserves the strict
lexicographic order. -/
theorem listLt_map_crockford {l1 l2 : List Nat} (hlt : List.lt l1 l2) :
    (∀ x ∈ l1, x < 32) → (∀ x ∈ l2, x < 32) →
    List.lt (l1.map crockfordChar) (l2.map crockfordChar) := by
  induction hlt with
  | nil b bs =>
    intro _ _
    exact List.lt.nil _ _
  | head as bs hab =>
    rename_i a b
    intro hb1 hb2
    exact List.lt.head _ _ (crockfordChar_mono a b
      (hb1 a (List.mem_cons_self a as)) (hb2 b (List.mem_cons_self b bs)) hab)
  | tail hab hba htl ih =>
    rename_i a as b bs
    intro hb1 hb2
    have heq : a = b := Nat.le_antisymm (Nat.not_lt.mp hba) (Nat.not_lt.mp hab)
    subst heq
    exact List.lt.tail (lt_irrefl _) (lt_irrefl _)
      (ih (fun x hx => hb1 x (List.mem_cons_of_mem a hx))
          (fun x hx => hb2 x (List.mem_cons_of_mem a hx)))

/-- A strict lexicographic comparison of equal-length lists survives
appending arbitrary suffixes. -/
theorem listLt_append {α : Type} [LT α] {l1 l2 : List α} (hlt : List.lt l1 l2) :
    l1.length = l2.length → ∀ s1 s2 : List α, List.lt (l1 ++ s1) (l2 ++ s2) := by
  induction hlt with
  | nil b bs =>
    intro hlen
    simp at hlen
  | head as bs hab =>
    intro _ s1 s2
    exact List.lt.head _ _ hab
  | tail hab hba htl ih =>
    intro hlen s1 s2
    exact List.lt.tail hab hba (ih (by simpa using hlen) s1 s2)

/-! ## Claim C9: ULID lexicographic monotonicity -/

/-- C9. ULID lexicographic monotonicity: whenever the second call's
Unix-millisecond timestamp is strictly greater than the first's (both
within the 48-bit range), the second encoded 26-character string is
strictly lexicographically greater than the first, whatever random bytes
the two calls draw — the first ten characters encode the timestamp's
5-bit groups most-significant-first over the ASCII-increasing Crockford
alphabet. -/
theorem ulid_lexicographic_monotone (ms1 ms2 : Nat) (rb1 rb2 : List Nat)
    (h12 : ms1 < ms2) (h48 : ms2 < 2 ^ 48) :
    encodeULID ms1 rb1 < encodeULID ms2 rb2 := by
  have hgoal : List.lt (ulidTimeChars ms1 ++ ulidRandChars rb1)
      (ulidTimeChars ms2 ++ ulidRandChars rb2) := ?_
  case _ =>
    rw [String.lt_iff_toList_lt]
    show List.Lex (fun a b => a < b) (ulidTimeChars ms1 ++ ulidRandChars rb1)
      (ulidTimeChars ms2 ++ ulidRandChars rb2)
    exact (List.lt_iff_lex_lt _ _).mp hgoal
  have hbig : (2 : Nat) ^ 48 < 32 ^ 10 := by norm_num
  have hd1 : ms1 % 32 ^ 10 = ms1 :=
    Nat.mod_eq_of_lt (lt_trans h12 (lt_trans h48 hbig))
  have hd2 : ms2 % 32 ^ 10 = ms2 := Nat.mod_eq_of_lt (lt_trans h48 hbig)
  have hlt10 : List.lt (digitsBE 10 ms1) (digitsBE 10 ms2) := by
    apply digitsBE_lt
    rw [hd1, hd2]
    exact h12
  have hmap := listLt_map_crockford hlt10 (digitsBE_bounded 10 ms1) (digitsBE_bounded 10 ms2)
  rw [← ulidTimeChars_eq, ← ulidTimeChars_eq] at hmap
  refine listLt_append hmap ?_ _ _
  rw [ulidTimeChars_eq, ulidTimeChars_eq, List.length_map, List.length_map,
    digitsBE_length, digitsBE_length]

/-- C9 witness: two concrete millisecond values one apart, with extreme
random bytes chosen against the ordering. -/
theorem ulid_lexicographic_monotone_witness :
    (1 : Nat) < 2 ∧ (2 : Nat) < 2 ^ 48 ∧
    encodeULID 1 [255, 255, 255, 255, 255, 255, 255, 255, 255, 255] <
      encodeULID 2 [0, 0, 0, 0, 0, 0, 0, 0, 0, 0] :=
  ⟨by decide, by norm_num,
   ulid_lexicographic_monotone 1 2 _ _ (by decide) (by norm_num)⟩

/-! ## Claim C10: reconciler Ready-condition semantics -/

/-- `meta.SetStatusCondition` always leaves the inserted condition in the
list: any predicate true of the new condition holds of some list entry. -/
theorem setStatusCondition_any (conds : List PolicyCondition) (c : PolicyCondition)
    (f : PolicyCondition → Bool) (hf : f c = true) :
    (setStatusCondition conds c).any f = true := by
  unfold setStatusCondition
  split
  next h =>
    rw [List.any_eq_true]
    refine ⟨c, ?_, hf⟩
    rw [List.any_eq_true] at h
    obtain ⟨d, hd, hdt⟩ := h
    rw [List.mem_map]
    refine ⟨d, hd, ?_⟩
    rw [hdt]
    rfl
  next h =>
    rw [List.any_append]
    have hc : [c].any f = true := by
      rw [List.any_cons]
      rw [hf]
      rfl
    rw [hc, Bool.or_true]

/-- On the successful listing path, the persisted status of `Reconcile` is
the status of the policy after the counters and the Ready condition are
written. -/
theorem reconcile_ok_persisted (policy : Policy) (pods : List CtrlPod) :
    (reconcile policy (.ok ()) (.ok pods)).persisted =
      (if pods.countP (fun p => ctrlHasSidecar p && p.phase == "Running") > 0 then
        setReadyCondition
          { policy with status := { policy.status with
              observedGeneration := policy.generation,
              appliedToPods :=
                (pods.countP (fun p => ctrlHasSidecar p && p.phase == "Running") : Int) } }
          true "PolicyApplied"
          "Policy is applied to pods with contextforge-proxy sidecar"
      else
        setReadyCondition
          { policy with status := { policy.status with
              observedGeneration := policy.generation,
              appliedToPods :=
                (pods.countP (fun p => ctrlHasSidecar p && p.phase == "Running") : Int) } }
          false "NoMatchingPods"
          "No running pods with contextforge-proxy sidecar match the selector").status := by
  unfold reconcile
  rw [ite_self]

/-- C10 counterexample (refuting the claim as stated about the persisted
status): on a pod-list failure the reconciler sets Ready=False with reason
ListPodsFailed only on the in-memory object and returns before issuing a
status update, so the persisted status still carries the stale Ready=True
PolicyApplied condition of the previous reconcile. -/
theorem list_failure_not_persisted :
    ((reconcile w10Policy (.ok ()) (.error "connection refused")).memory.status.conditions.any
      (fun c => c.type == "Ready" && c.status == false && c.reason == "ListPodsFailed")) = true
    ∧ (reconcile w10Policy (.ok ()) (.error "connection refused")).persisted = w10Policy.status
    ∧ ((w10Policy.status.conditions.any
      (fun c => c.type == "Ready" && c.status == false && c.reason == "ListPodsFailed")) = false)
    ∧ ((w10Policy.status.conditions.any
      (fun c => c.type == "Ready" && c.status == true && c.reason == "PolicyApplied")) = true) := by
  decide

/-- C10 (amended). Ready-condition semantics of `Reconcile`: a
selector-parse failure sets Ready=False/InvalidSelector and a list failure
sets Ready=False/ListPodsFailed, but only on the in-memory object — the
error paths return without a status update, so the persisted status is
unchanged. On a successful listing the new status (observedGeneration,
appliedToPods = running sidecar pod count, and Ready=True/PolicyApplied
when that count is positive, Ready=False/NoMatchingPods when it is zero)
is persisted. -/
theorem reconcile_ready_condition_semantics (policy : Policy) (e : String)
    (pods : List CtrlPod) (hsel : policy.podSelectorPresent = true) :
    (((reconcile policy (.error e) (.ok pods)).memory.status.conditions.any
        (fun c => c.type == "Ready" && c.status == false && c.reason == "InvalidSelector")) = true
      ∧ (reconcile policy (.error e) (.ok pods)).persisted = policy.status
      ∧ (reconcile policy (.error e) (.ok pods)).isError = true)
    ∧ (((reconcile policy (.ok ()) (.error e)).memory.status.conditions.any
        (fun c => c.type == "Ready" && c.status == false && c.reason == "ListPodsFailed")) = true
      ∧ (reconcile policy (.ok ()) (.error e)).persisted = policy.status
      ∧ (reconcile policy (.ok ()) (.error e)).isError = true)
    ∧ ((reconcile policy (.ok ()) (.ok pods)).persisted
        = (reconcile policy (.ok ()) (.ok pods)).memory.status
      ∧ (reconcile policy (.ok ()) (.ok pods)).persisted.observedGeneration = policy.generation
      ∧ (reconcile policy (.ok ()) (.ok pods)).persisted.appliedToPods
        = (pods.countP (fun p => ctrlHasSidecar p && p.phase == "Running") : Int)
      ∧ (if pods.countP (fun p => ctrlHasSidecar p && p.phase == "Running") > 0 then
          ((reconcile policy (.ok ()) (.ok pods)).persisted.conditions.any
            (fun c => c.type == "Ready" && c.status == true
              && c.reason == "PolicyApplied")) = true
        else
          ((reconcile policy (.ok ()) (.ok pods)).persisted.conditions.any
            (fun c => c.type == "Ready" && c.status == false
              && c.reason == "NoMatchingPods")) = true)) := by
  have h1 : reconcile policy (.error e) (.ok pods) =
      { memory := setReadyCondition policy false "InvalidSelector"
          ("Failed to parse PodSelector: " ++ e),
        persisted := policy.status, isError := true, requeueAfter := none } := by
    unfold reconcile
    rw [hsel]
    rfl
  have h2 : reconcile policy (.ok ()) (.error e) =
      { memory := setReadyCondition policy false "ListPodsFailed"
          ("Failed to list pods: " ++ e),
        persisted := policy.status, isError := true, requeueAfter := none } := by
    unfold reconcile
    rw [ite_self]
  refine ⟨⟨?_, ?_, ?_⟩, ⟨?_, ?_, ?_⟩, ?_, ?_, ?_, ?_⟩
  · rw [h1]
    exact setStatusCondition_any _ _ _ (by rfl)
  · rw [h1]
  · rw [h1]
  · rw [h2]
    exact setStatusCondition_any _ _ _ (by rfl)
  · rw [h2]
  · rw [h2]
  · unfold reconcile
    rw [ite_self]
  · rw [reconcile_ok_persisted]
    by_cases h : pods.countP (fun p => ctrlHasSidecar p && p.phase == "Running") > 0
    · rw [if_pos h]
      rfl
    · rw [if_neg h]
      rfl
  · rw [reconcile_ok_persisted]
    by_cases h : pods.countP (fun p => ctrlHasSidecar p && p.phase == "Running") > 0
    · rw [if_pos h]
      rfl
    · rw [if_neg h]
      rfl
  · rw [reconcile_ok_persisted]
    by_cases h : pods.countP (fun p => ctrlHasSidecar p && p.phase == "Running") > 0
    · rw [if_pos h, if_pos h]
      exact setStatusCondition_any _ _ _ (by rfl)
    · rw [if_neg h, if_neg h]
      exact setStatusCondition_any _ _ _ (by rfl)

/-- C10 witness: the amended theorem applied to the concrete policy, a
list-failure message, and a single running sidecar pod. -/
theorem reconcile_ready_condition_semantics_witness :
    w10Policy.podSelectorPresent = true
    ∧ ((((reconcile w10Policy (.error "bad") (.ok [w10Pod])).memory.status.conditions.any
        (fun c => c.type == "Ready" && c.status == false && c.reason == "InvalidSelector")) = true
      ∧ (reconcile w10Policy (.error "bad") (.ok [w10Pod])).persisted = w10Policy.status
      ∧ (reconcile w10Policy (.error "bad") (.ok [w10Pod])).isError = true)
    ∧ (((reconcile w10Policy (.ok ()) (.error "bad")).memory.status.conditions.any
        (fun c => c.type == "Ready" && c.status == false && c.reason == "ListPodsFailed")) = true
      ∧ (reconcile w10Policy (.ok ()) (.error "bad")).persisted = w10Policy.status
      ∧ (reconcile w10Policy (.ok ()) (.error "bad")).isError = true)
    ∧ ((reconcile w10Policy (.ok ()) (.ok [w10Pod])).persisted
        = (reconcile w10Policy (.ok ()) (.ok [w10Pod])).memory.status
      ∧ (reconcile w10Policy (.ok ()) (.ok [w10Pod])).persisted.observedGeneration
        = w10Policy.generation
      ∧ (reconcile w10Policy (.ok ()) (.ok [w10Pod])).persisted.appliedToPods
        = ([w10Pod].countP (fun p => ctrlHasSidecar p && p.phase == "Running") : Int)
      ∧ (if [w10Pod].countP (fun p => ctrlHasSidecar p && p.phase == "Running") > 0 then
          ((reconcile w10Policy (.ok ()) (.ok [w10Pod])).persisted.conditions.any
            (fun c => c.type == "Ready" && c.status == true
              && c.reason == "PolicyApplied")) = true
        else
          ((reconcile w10Policy (.ok ()) (.ok [w10Pod])).persisted.conditions.any
            (fun c => c.type == "Ready" && c.status == false
              && c.reason == "NoMatchingPods")) = true))) :=
  ⟨by decide, reconcile_ready_condition_semantics w10Policy "bad" [w10Pod] (by decide)⟩
